import Mathlib

/-!
Verification development for the pangalactic.core merge engine
(`src/pangalactic/core/cmuster.pyx`, function `deserialize`).

The shallow embedding below translates the deserializer and the state it
manipulates into executable Lean definitions.  Serialized objects become the
structure `SO`, live store objects become `Obj`, and the mutable state of one
`deserialize` call becomes `MState` threaded through `processRecord` (a
faithful rendering of the per-record body of the main loop, source lines
177-342) and `runDeserialize` (the whole function, lines 101-382).

External collaborators of the deserializer that are not part of the source
under verification (the schema registry, the refdata oid list, the
`earlier` datetime helper, and the parametrics cache functions) are modelled
from the specification; each such definition carries a doc comment starting
with "Modelled from the spec:".
-/

namespace PanGalactic

/-- Association-list lookup keyed by decidable equality; models Python dict
subscription and `orb.get`. -/
def alookup {κ α : Type} [DecidableEq κ] : List (κ × α) → κ → Option α
  | [], _ => none
  | (k, v) :: rest, key => if k = key then some v else alookup rest key

/-- Replace the value at a key in place, or append a fresh entry at the end;
models assignment into a Python dict and saving an object into the db. -/
def setKey {κ α : Type} [DecidableEq κ] : List (κ × α) → κ → α → List (κ × α)
  | [], k, v => [(k, v)]
  | (k1, v1) :: rest, k, v =>
      if k1 = k then (k, v) :: rest else (k1, v1) :: setKey rest k v

/-- Set union on lists used as sets, keeping first-seen order; models
`set.update`. -/
def listUnion (a b : List String) : List String :=
  a ++ b.filter (fun x => decide (x ∉ a))

/-- One entry of a `parameters` or `data_elements` section: a value together
with its units and its own per-field timestamp. -/
structure PVal where
  value : Int
  units : String
  mod_datetime : Nat
deriving DecidableEq

/-- A serialized object (one record of the batch): the flat field mapping of
`cmuster.deserialize`.  An empty `oid` models a record without an oid value,
an empty `cname` a record without a `_cname`; `fkVals` holds the raw oid
strings of the foreign-key fields ("" meaning empty). -/
structure SO where
  oid : String
  cname : String
  mod_datetime : Option Nat
  name : Option String
  fkVals : List (String × String)
  parameters : List (String × PVal)
  data_elements : List (String × PVal)
deriving DecidableEq

/-- A live object in the store.  Foreign keys hold the oid of the referenced
object, or `none` when unset (which is also how an fk whose target could not
be resolved is stored). -/
structure Obj where
  cname : String
  mod_datetime : Option Nat
  name : Option String
  fks : List (String × Option String)
deriving DecidableEq

/-- The persistent state a `deserialize` call reads and writes: the object
store plus the module-level caches (`parameterz`, `data_elementz`,
`componentz`, `req_allocz`). -/
structure PState where
  store : List (String × Obj)
  parameterz : List ((String × String) × PVal)
  data_elementz : List ((String × String) × PVal)
  componentz : List (String × List String)
  req_allocz : List (String × List String)
deriving DecidableEq

/-- The full mutable state of one `deserialize` call: the persistent state
plus the local bookkeeping variables of the function body (lines 119-141),
the dictify output lists, the recompute flags, and - for the cache claims -
the sets of cache roots actually refreshed. -/
structure MState where
  p : PState
  current_oids : List String
  objs_out : List String
  created_oids : List String
  updates : List String
  ignores : List String
  out_new : List String
  out_modified : List String
  out_unmodified : List String
  out_error : List String
  recompute_required : Bool
  refresh_comp_required : Bool
  acus : List String
  psus : List String
  products : List String
  last_obj : Option String
  refreshed_componentz : List String
  refreshed_req_allocz : List String
  recomputed_parm_oids : List String
deriving DecidableEq

/-- Return value of `deserialize`: the plain list of deserialized oids, or,
with `dictify`, the dictionary with keys new / modified / unmodified /
error. -/
inductive Ret where
  | objs (l : List String)
  | dict (new modified unmodified error : List String)
deriving DecidableEq

/-- DESERIALIZATION_ORDER from cmuster.pyx lines 32-63: the fixed dependency
order in which classes are deserialized. -/
def DESERIALIZATION_ORDER : List String :=
  ["Relation", "Discipline", "Role", "Organization", "Project", "Person",
   "RoleAssignment", "DataElementDefinition", "ParameterDefinition",
   "ParameterRelation", "PortType", "PortTemplate", "ProductType",
   "ActivityType", "Product", "Template", "HardwareProduct",
   "SoftwareProduct", "DigitalProduct", "Activity", "Mission", "ActCompRel",
   "Acu", "ProjectSystemUsage", "Model", "Port", "Flow", "Representation",
   "RepresentationFile", "Requirement"]

/-- Modelled from the spec: `orb.classes`, the registry of recognized domain
classes (the closed set of named types of the Schema Catalog, an external
collaborator).  It contains every class of the explicit order plus
recognized classes that the order does not mention. -/
def classes : List String :=
  DESERIALIZATION_ORDER ++ ["DisciplineParameterDefinition", "ParameterContext"]

/-- Modelled from the spec: the classes that are subtypes of Product
(`isinstance(obj, orb.classes[Product])`); the class hierarchy lives in the
external ontology registry. -/
def productClasses : List String :=
  ["Product", "Template", "HardwareProduct", "SoftwareProduct",
   "DigitalProduct"]

/-- Modelled from the spec: the non-inverse foreign-key fields of each class
per the Schema Catalog (an external collaborator), restricted to the fields
the claims exercise.  Only Flow carries the field names start_port,
end_port and flow_context, matching the source comment that those are Flow
fields. -/
def fkFields (c : String) : List String :=
  if c = "Port" ∨ c = "PortTemplate" then ["of_product"]
  else if c = "Flow" then ["start_port", "end_port", "flow_context"]
  else if c = "Acu" then ["assembly", "component"]
  else if c = "ProjectSystemUsage" then ["project", "system"]
  else if c = "Requirement" then ["allocated_to", "allocated_to_system"]
  else []

/-- Modelled from the spec: `pangalactic.core.refdata.ref_oids`, the oids of
the reference/seed data objects (external data, not in the sources). -/
def refOids : List String :=
  ["pgefobjects:Relation.owner", "pgefobjects:ParameterDefinition.m"]

/-- Modelled from the spec: `pangalactic.core.utils.datetimes.earlier`
(imported by cmuster.pyx but defined outside the sources).  Per the spec the
merge applies an update only when the incoming timestamp is strictly later
than the stored one, so `earlier a b` holds exactly when `a` is strictly
earlier than `b`; a comparison involving a missing datetime is never
strictly earlier. -/
def earlier : Option Nat → Option Nat → Bool
  | some a, some b => decide (a < b)
  | _, _ => false

/-- Merge one incoming parameter against the cached one under the per-field
timestamp rule: the incoming record wins only when its timestamp is strictly
later. -/
def mergeParm (old : Option PVal) (incoming : PVal) : PVal :=
  match old with
  | none => incoming
  | some o => if o.mod_datetime < incoming.mod_datetime then incoming else o

/-- Modelled from the spec: `pangalactic.core.parametrics.deserialize_parms`
(not in the sources).  The parameters of a record are merged field by field
into the `parameterz` cache, each under its own timestamp, strictly-later
winning. -/
def deserialize_parms (pz : List ((String × String) × PVal)) (oid : String)
    (parms : List (String × PVal)) : List ((String × String) × PVal) :=
  parms.foldl
    (fun pz kv =>
      setKey pz (oid, kv.1) (mergeParm (alookup pz (oid, kv.1)) kv.2)) pz

/-- Modelled from the spec: `pangalactic.core.parametrics.deserialize_des`
(not in the sources); identical field-by-field merge into the
`data_elementz` cache. -/
def deserialize_des (dz : List ((String × String) × PVal)) (oid : String)
    (des : List (String × PVal)) : List ((String × String) × PVal) :=
  des.foldl
    (fun dz kv =>
      setKey dz (oid, kv.1) (mergeParm (alookup dz (oid, kv.1)) kv.2)) dz

/-- The value of a foreign-key field of a live object (`none` when the field
is absent or unset). -/
def fkRef (ob : Obj) (fk : String) : Option String :=
  (alookup ob.fks fk).getD none

/-- The raw value of a foreign-key field in a record ("" when absent). -/
def fkVal (d : SO) (fk : String) : String :=
  (alookup d.fkVals fk).getD ""

/-- Resolve a foreign-key oid against the store: `kw[fk] = orb.get(d[fk])`,
line 272; an oid with no object resolves to `none` (the field is then set
to null, not treated as an error). -/
def resolveFk (store : List (String × Obj)) (v : String) : Option String :=
  if (alookup store v).isSome then some v else none

/-- The resolved keyword entries contributed by the fk loop (lines 262-292):
only fields whose raw value is non-empty are added to `kw`. -/
def fkKw (store : List (String × Obj)) (d : SO) : List (String × Option String) :=
  (fkFields d.cname).filterMap
    (fun fk =>
      if fkVal d fk ≠ "" then some (fk, resolveFk store (fkVal d fk))
      else none)

/-- The oids appended to `ignores` by the fk loop (lines 273-292): a Port
with an empty of_product, and any record with an empty start_port, end_port
or flow_context field, are marked invalid.  Depends only on the record. -/
def fkIgn (d : SO) : List String :=
  (fkFields d.cname).foldl
    (fun ign fk =>
      if fkVal d fk ≠ "" then ign
      else
        let ign1 :=
          if fk = "of_product" ∧ d.cname = "Port" then ign ++ [d.oid] else ign
        if fk = "start_port" ∨ fk = "end_port" ∨ fk = "flow_context" then
          ign1 ++ [d.oid]
        else ign1) []

/-- Apply the keyword dict to an existing object (the setattr loop of lines
298-299): every scalar field is overwritten from the record, and each fk
field present in `kw` is overwritten with its resolved value. -/
def applyKw (ob : Obj) (d : SO) (kwf : List (String × Option String)) : Obj :=
  { ob with
    mod_datetime := d.mod_datetime
    name := d.name
    fks := kwf.foldl (fun fks kv => setKey fks kv.1 kv.2) ob.fks }

/-- Build a new object from the keyword dict (line 317, `cls(**kwargs)`):
scalar fields from the record, fk fields exactly those present in `kw`. -/
def newObj (d : SO) (kwf : List (String × Option String)) : Obj :=
  { cname := d.cname
    mod_datetime := d.mod_datetime
    name := d.name
    fks := kwf }

/-- Modelled from the spec: the component index derivation used by
`refresh_componentz` (in parametrics, not in the sources) - the cache entry
of an assembly root is the list of Acu usages whose assembly it is, a pure
function of the store. -/
def deriveComponentz (store : List (String × Obj)) (a : String) : List String :=
  (store.filter
    (fun kv => kv.2.cname = "Acu" ∧ fkRef kv.2 "assembly" = some a)).map
    Prod.fst

/-- Modelled from the spec: the requirement-allocation derivation used by
`refresh_req_allocz` (in parametrics, not in the sources) - the cache entry
of a requirement is its allocation targets re-derived from the store. -/
def deriveReqAlloc (store : List (String × Obj)) (r : String) : List String :=
  match alookup store r with
  | none => []
  | some ob =>
      (match fkRef ob "allocated_to" with
       | some a => [a]
       | none => []) ++
      (match fkRef ob "allocated_to_system" with
       | some ps => [ps]
       | none => [])

/-- Inverse relation `product.where_used` (computed by the store, never
assigned): the Acu usages whose component is the given product. -/
def where_used (store : List (String × Obj)) (pr : String) : List String :=
  (store.filter
    (fun kv => kv.2.cname = "Acu" ∧ fkRef kv.2 "component" = some pr)).map
    Prod.fst

/-- Inverse relation `product.projects_using_system`: the
ProjectSystemUsage objects whose system is the given product. -/
def projects_using_system (store : List (String × Obj)) (pr : String) :
    List String :=
  (store.filter
    (fun kv =>
      kv.2.cname = "ProjectSystemUsage" ∧ fkRef kv.2 "system" = some pr)).map
    Prod.fst

/-- Inverse relation `acu.allocated_requirements`: the Requirement objects
allocated to the given usage. -/
def allocated_requirements (store : List (String × Obj)) (a : String) :
    List String :=
  (store.filter
    (fun kv =>
      kv.2.cname = "Requirement" ∧ fkRef kv.2 "allocated_to" = some a)).map
    Prod.fst

/-- Inverse relation `psu.system_requirements`: the Requirement objects
allocated to the given project-system usage. -/
def system_requirements (store : List (String × Obj)) (ps : String) :
    List String :=
  (store.filter
    (fun kv =>
      kv.2.cname = "Requirement" ∧
        fkRef kv.2 "allocated_to_system" = some ps)).map
    Prod.fst

/-- The oids of all roots present in the parameter cache. -/
def parmRoots (pz : List ((String × String) × PVal)) : List String :=
  (pz.map (fun kv => kv.1.1)).foldl
    (fun acc o => if o ∈ acc then acc else acc ++ [o]) []

/-- The object whose assembly the trailing refresh block would recompute:
the assembly fk of the object most recently bound by the loop (the Python
variable `obj`, which leaks across iterations, modelled by `last_obj`). -/
def refreshTarget (s : MState) : Option String :=
  match s.last_obj with
  | none => none
  | some o =>
      match alookup s.p.store o with
      | none => none
      | some ob => fkRef ob "assembly"

/-- The trailing block of the record loop (lines 339-342): if a refresh of
the component index is pending and the object most recently bound by the
loop has a truthy assembly, recompute that assembly root of `componentz`
and clear the flag. -/
def refreshBlock (s : MState) : MState :=
  if s.refresh_comp_required then
    match refreshTarget s with
    | none => s
    | some a =>
        { s with
          p := { s.p with
                 componentz :=
                   setKey s.p.componentz a (deriveComponentz s.p.store a) }
          refreshed_componentz := s.refreshed_componentz ++ [a]
          refresh_comp_required := false }
  else s

/-- The cache sub-merges and the fk validity flags of the record body,
lines 236-292: merge the data_elements and parameters sections into their
module-level caches (setting the recompute flag when parameters are
present) and append the oids flagged by the fk loop to `ignores`. -/
def bodyPrep (s : MState) (d : SO) : MState :=
  let s :=
    if d.data_elements ≠ [] then
      { s with p := { s.p with
          data_elementz := deserialize_des s.p.data_elementz d.oid d.data_elements } }
    else s
  let s :=
    if d.parameters ≠ [] then
      { s with
        recompute_required := true
        p := { s.p with
          parameterz := deserialize_parms s.p.parameterz d.oid d.parameters } }
    else s
  { s with ignores := s.ignores ++ fkIgn d }

/-- The cache flags set after an update, lines 301-309. -/
def updFlags (s : MState) (d : SO) : MState :=
  let s :=
    if d.cname = "Acu" then { s with refresh_comp_required := true } else s
  if d.cname = "Acu" ∨ d.cname = "ProjectSystemUsage" ∨ d.cname = "Requirement"
  then { s with recompute_required := true }
  else s

/-- The bookkeeping after a creation, lines 327-335. -/
def createFlags (s : MState) (d : SO) : MState :=
  let s :=
    if d.cname = "Acu" then
      { s with acus := s.acus ++ [d.oid], refresh_comp_required := true }
    else if d.cname = "ProjectSystemUsage" then
      { s with psus := s.psus ++ [d.oid] }
    else if d.cname ∈ productClasses then
      { s with products := s.products ++ [d.oid] }
    else s
  if d.cname = "Acu" ∨ d.cname = "ProjectSystemUsage" ∨ d.cname = "Requirement"
  then { s with recompute_required := true }
  else s

/-- The apply-or-create branch of the record body, lines 293-338: an oid
marked for update and not ignored has the keyword dict applied to its store
object; an unmarked, unignored oid is created as a new object; an ignored
oid is dropped. -/
def bodyMain (dict : Bool) (s : MState) (d : SO) : MState :=
  let kwf := fkKw s.p.store d
  if d.oid ∈ s.updates ∧ d.oid ∉ s.ignores then
    match alookup s.p.store d.oid with
    | none => s
    | some ob =>
        updFlags
          { s with
            p := { s.p with store := setKey s.p.store d.oid (applyKw ob d kwf) }
            objs_out := s.objs_out ++ [d.oid]
            last_obj := some d.oid } d
  else if d.oid ∉ s.ignores then
    createFlags
      { s with
        p := { s.p with store := s.p.store ++ [(d.oid, newObj d kwf)] }
        objs_out := s.objs_out ++ [d.oid]
        created_oids := s.created_oids ++ [d.oid]
        current_oids := s.current_oids ++ [d.oid]
        out_new := if dict then s.out_new ++ [d.oid] else s.out_new
        last_obj := some d.oid } d
  else s

/-- The body shared by all records that pass (or bypass) the object-level
timestamp gate: lines 222-342 of the source - the cache sub-merges and fk
validity pass, the apply-or-create branch, then the trailing componentz
refresh block. -/
def processBody (dict : Bool) (s : MState) (d : SO) : MState :=
  refreshBlock (bodyMain dict (bodyPrep s d) d)

/-- Process one record of the batch: lines 177-342 of the source.  An oid
already present in the store goes through the timestamp gate (force always
applies; otherwise only a strictly later incoming timestamp applies, and a
same-or-earlier or missing one is ignored, ending the iteration); a fresh
oid goes straight to the body. -/
def processRecord (force dict : Bool) (s : MState) (d : SO) : MState :=
  if d.oid ∈ s.current_oids then
    let db := alookup s.p.store d.oid
    if force ∧ db.isSome then
      let s := { s with
        updates := s.updates ++ [d.oid]
        out_modified := if dict then s.out_modified ++ [d.oid] else s.out_modified }
      processBody dict s d
    else if ¬ (d.mod_datetime.isSome ∧ db.isSome ∧
               earlier ((db.map Obj.mod_datetime).getD none) d.mod_datetime) then
      { s with
        ignores := s.ignores ++ [d.oid]
        out_unmodified :=
          if dict then s.out_unmodified ++ [d.oid] else s.out_unmodified }
    else
      match db with
      | none => s
      | some _ =>
          let s := { s with
            updates := s.updates ++ [d.oid]
            out_modified :=
              if dict then s.out_modified ++ [d.oid] else s.out_modified }
          processBody dict s d
  else processBody dict s d

/-- The key under which the grouping loop of lines 155-173 files a record:
its class name when that is in the explicit order, the final bucket
otherwise. -/
def keyOf (so : SO) : String :=
  if so.cname ∈ DESERIALIZATION_ORDER then so.cname else "other"

/-- Append a record to the group of a key, creating the group at the end of
the dict when absent (lines 167-173). -/
def addTo : List (String × List SO) → String → SO → List (String × List SO)
  | [], k, so => [(k, [so])]
  | (k1, l) :: rest, k, so =>
      if k1 = k then (k1, l ++ [so]) :: rest else (k1, l) :: addTo rest k so

/-- One step of the grouping loop (lines 155-173): a record without a class
name or with an unrecognized one is dropped; otherwise it is filed under
its key. -/
def loadStep (L : List (String × List SO)) (so : SO) : List (String × List SO) :=
  if so.cname = "" ∨ so.cname ∉ classes then L else addTo L (keyOf so) so

/-- The `loadable` dict built by the grouping loop (lines 141-173), starting
from the dict holding the empty final bucket. -/
def buildLoadable (ser : List SO) : List (String × List SO) :=
  ser.foldl loadStep [("other", [])]

/-- The records of a batch that survive the class-name checks of the
grouping loop, in batch-arrival order. -/
def validOf (ser : List SO) : List SO :=
  ser.filter (fun so => decide (¬ (so.cname = "" ∨ so.cname ∉ classes)))

/-- The sequence in which the main loop visits the records (lines 174-177):
the groups of the explicit order that are present, in that order, then the
final bucket, each group in batch-arrival order. -/
def processSeq (ser : List SO) : List SO :=
  let L := buildLoadable ser
  (((DESERIALIZATION_ORDER.filter (fun c => (alookup L c).isSome)).map
      (fun c => (alookup L c).getD [])).flatten) ++
    (alookup L "other").getD []

/-- The preprocessing of lines 104-113: drop falsy records and records
without an oid. -/
def prefilter (batch : List (Option SO)) : List SO :=
  batch.filterMap
    (fun so? =>
      match so? with
      | none => none
      | some so => if so.oid ≠ "" then some so else none)

/-- The records the main loop actually iterates over, as a function of the
batch and the include_refdata option (lines 104-176). -/
def processedRecords (batch : List (Option SO)) (ir : Bool) : List SO :=
  if batch = [] then []
  else
    let ser1 := prefilter batch
    if ser1 = [] then []
    else
      processSeq (if ir then ser1 else ser1.filter (fun so => so.oid ∉ refOids))

/-- The fresh state at entry of `deserialize` (lines 119-144):
`current_oids = orb.get_oids()`, all bookkeeping empty, flags clear. -/
def initState (p : PState) : MState :=
  { p := p
    current_oids := p.store.map Prod.fst
    objs_out := []
    created_oids := []
    updates := []
    ignores := []
    out_new := []
    out_modified := []
    out_unmodified := []
    out_error := []
    recompute_required := false
    refresh_comp_required := false
    acus := []
    psus := []
    products := []
    last_obj := none
    refreshed_componentz := []
    refreshed_req_allocz := []
    recomputed_parm_oids := [] }

/-- The epilogue of lines 343-378: extend the usage sets with the inverse
relations of the deserialized products, collect the requirements allocated
to them, refresh the requirement-allocation cache for exactly those
requirements, and - when required and not suppressed - recompute the
parameter cache (`orb.recompute_parmz()`, an argument-free wholesale
recomputation, modelled by recording every root of the cache as
recomputed). -/
def postLoop (fnr : Bool) (s : MState) : MState :=
  let acus2 :=
    s.products.foldl (fun ac pr => listUnion ac (where_used s.p.store pr)) s.acus
  let psus2 :=
    s.products.foldl
      (fun ps pr => listUnion ps (projects_using_system s.p.store pr)) s.psus
  let reqs :=
    acus2.foldl
      (fun r a => listUnion r (allocated_requirements s.p.store a)) []
  let reqs :=
    psus2.foldl
      (fun r ps => listUnion r (system_requirements s.p.store ps)) reqs
  let s :=
    if reqs ≠ [] then
      { s with
        p := { s.p with
          req_allocz :=
            reqs.foldl
              (fun rz r => setKey rz r (deriveReqAlloc s.p.store r))
              s.p.req_allocz }
        refreshed_req_allocz := s.refreshed_req_allocz ++ reqs
        recompute_required := true }
    else s
  if s.recompute_required ∧ ¬ fnr then
    { s with recomputed_parm_oids := parmRoots s.p.parameterz }
  else s

/-- The whole of `deserialize` (lines 101-382): early return of the empty
list for an empty or all-empty batch, preprocessing, the grouped main loop,
the cache epilogue, and the return value, a plain list of deserialized oids
or the dictify dictionary. -/
def runDeserialize (p : PState) (batch : List (Option SO))
    (ir dict fnr force : Bool) : Ret × MState :=
  if batch = [] then (Ret.objs [], initState p)
  else if prefilter batch = [] then (Ret.objs [], initState p)
  else
    let s :=
      (processedRecords batch ir).foldl (processRecord force dict) (initState p)
    let s := postLoop fnr s
    (if dict then Ret.dict s.out_new s.out_modified s.out_unmodified s.out_error
     else Ret.objs s.objs_out, s)

/-- Modelled from the spec: the reconciliation run at login described in the
developer notes (Object Deletions) - objects the repository still holds
that neither exist locally nor are present in the trash are restored; the
restore set is remote minus local minus trash. -/
def reconcile (remote localOids trash : List String) : List String :=
  remote.filter (fun o => decide (o ∉ localOids) ∧ decide (o ∉ trash))

/-- A sequence of merges: fold `runDeserialize` over a list of batches, each
with its own option flags, carrying the persistent state. -/
def runMerges (p : PState)
    (batches : List (List (Option SO) × Bool × Bool × Bool × Bool)) : PState :=
  batches.foldl
    (fun p b => (runDeserialize p b.1 b.2.1 b.2.2.1 b.2.2.2.1 b.2.2.2.2).2.p) p

/-- Ordering between the old and the new stored object at one oid across a
merge step: either untouched, or rewritten with a strictly later
timestamp. -/
def tsStep (ob ob2 : Obj) : Prop :=
  ob2 = ob ∨
    ∃ x y, ob.mod_datetime = some x ∧ ob2.mod_datetime = some y ∧ x < y

/-- A serialized record with every field empty, base of the concrete
fixtures below. -/
def soBase : SO :=
  { oid := ""
    cname := ""
    mod_datetime := none
    name := none
    fkVals := []
    parameters := []
    data_elements := [] }

/-- Fixture: a stored Product named A with timestamp 5. -/
def obP1 : Obj :=
  { cname := "Product", mod_datetime := some 5, name := some "A", fks := [] }

/-- Fixture: a store holding the Product P1 and cached parameters for P1 and
for an unrelated root R2. -/
def pSt1 : PState :=
  { store := [("P1", obP1)]
    parameterz := [(("P1", "m"), ⟨10, "kg", 1⟩), (("R2", "m"), ⟨3, "kg", 2⟩)]
    data_elementz := []
    componentz := [("R2", ["x"])]
    req_allocz := [] }

/-- Fixture: an incoming record for P1 whose timestamp equals the stored one
and which carries a parameter with a strictly later per-field timestamp. -/
def dP1eq : SO :=
  { soBase with
    oid := "P1"
    cname := "Product"
    mod_datetime := some 5
    name := some "B"
    parameters := [("m", ⟨20, "kg", 9⟩)] }

/-- Fixture: an incoming record for P1 with a strictly later timestamp and a
parameter section. -/
def dP1new : SO :=
  { soBase with
    oid := "P1"
    cname := "Product"
    mod_datetime := some 8
    name := some "B"
    parameters := [("m", ⟨20, "kg", 9⟩)] }

/-- Fixture: an incoming record for P1 with a strictly earlier timestamp. -/
def dP1old : SO :=
  { soBase with
    oid := "P1"
    cname := "Product"
    mod_datetime := some 3
    name := some "C" }

/-- Fixture: a Flow record whose three hard-required fk fields carry oids
that resolve to no object. -/
def dFlow : SO :=
  { soBase with
    oid := "F1"
    cname := "Flow"
    mod_datetime := some 3
    fkVals := [("start_port", "Z1"), ("end_port", "Z2"), ("flow_context", "Z3")] }

/-- Fixture: a Port record with an empty hard-required of_product field and
a parameter section. -/
def dPort : SO :=
  { soBase with
    oid := "PT1"
    cname := "Port"
    mod_datetime := some 3
    parameters := [("m", ⟨7, "kg", 3⟩)] }

/-- Fixture: a fresh Product record for an oid recorded in the trash. -/
def dX : SO :=
  { soBase with oid := "X", cname := "Product", mod_datetime := some 7 }

/-- Fixture: a tombstone registry holding the oid X. -/
def trashC : List String := ["X"]

/-- Fixture: a fresh Model record, a class that touches no derived cache. -/
def dModel : SO :=
  { soBase with oid := "M1", cname := "Model", mod_datetime := some 1 }

/-- The state of a merge call in which every record seen so far has been
classified ignored at the timestamp gate: fresh bookkeeping except for the
accumulated ignore list (and, under dictify, the unmodified output). -/
def ignoredState (dict : Bool) (p1 : PState) (acc : List String) : MState :=
  { initState p1 with
    ignores := acc
    out_unmodified := if dict then acc else [] }

/-- Fixture: a stored Product X with timestamp 10. -/
def obX10 : Obj :=
  { cname := "Product", mod_datetime := some 10, name := some "A", fks := [] }

/-- Fixture: a store holding only the Product X. -/
def pSt4 : PState :=
  { store := [("X", obX10)]
    parameterz := []
    data_elementz := []
    componentz := []
    req_allocz := [] }

/-- Fixture: a record for X with a timestamp (5) earlier than the stored
one. -/
def dXold2 : SO :=
  { soBase with
    oid := "X", cname := "Product", mod_datetime := some 5, name := some "old" }

/-- Fixture: a second record for the same oid X with a timestamp (20) later
than the stored one. -/
def dXnew2 : SO :=
  { soBase with
    oid := "X", cname := "Product", mod_datetime := some 20, name := some "new" }

section Lemmas

variable {κ α : Type} [DecidableEq κ]

theorem alookup_setKey_self (l : List (κ × α)) (k : κ) (v : α) :
    alookup (setKey l k v) k = some v := by
  induction l with
  | nil => simp [setKey, alookup]
  | cons h t ih =>
      obtain ⟨k1, v1⟩ := h
      by_cases hk : k1 = k
      · simp [setKey, hk, alookup]
      · simp [setKey, hk, alookup, ih]

theorem alookup_setKey_ne (l : List (κ × α)) (k k2 : κ) (v : α) (h : k2 ≠ k) :
    alookup (setKey l k v) k2 = alookup l k2 := by
  induction l with
  | nil => simp [setKey, alookup, Ne.symm h]
  | cons hd t ih =>
      obtain ⟨k1, v1⟩ := hd
      by_cases hk : k1 = k
      · subst hk
        simp [setKey, alookup, Ne.symm h]
      · simp only [setKey, if_neg hk, alookup]
        by_cases hk2 : k1 = k2
        · simp [hk2]
        · simp [hk2, ih]

theorem setKey_eq_of_alookup (l : List (κ × α)) (k : κ) (v : α)
    (h : alookup l k = some v) : setKey l k v = l := by
  induction l with
  | nil => simp [alookup] at h
  | cons hd t ih =>
      obtain ⟨k1, v1⟩ := hd
      by_cases hk : k1 = k
      · subst hk
        simp [alookup] at h
        simp [setKey, h]
      · simp [alookup, hk] at h
        simp [setKey, hk, ih h]

theorem alookup_append (l m : List (κ × α)) (k : κ) :
    alookup (l ++ m) k =
      match alookup l k with
      | some v => some v
      | none => alookup m k := by
  induction l with
  | nil => simp [alookup]
  | cons hd t ih =>
      obtain ⟨k1, v1⟩ := hd
      by_cases hk : k1 = k
      · simp [alookup, hk]
      · simp [alookup, hk, ih]

theorem alookup_append_single_ne (l : List (κ × α)) (k k2 : κ) (v : α)
    (h : k ≠ k2) : alookup (l ++ [(k2, v)]) k = alookup l k := by
  rw [alookup_append]
  cases hl : alookup l k with
  | none => simp [alookup, Ne.symm h]
  | some w => rfl

theorem alookup_append_single_self (l : List (κ × α)) (k : κ) (v : α)
    (h : alookup l k = none) : alookup (l ++ [(k, v)]) k = some v := by
  rw [alookup_append, h]
  simp [alookup]

theorem alookup_isSome_iff_mem (l : List (κ × α)) (k : κ) :
    (alookup l k).isSome ↔ k ∈ l.map Prod.fst := by
  induction l with
  | nil => simp [alookup]
  | cons hd t ih =>
      obtain ⟨k1, v1⟩ := hd
      by_cases hk : k1 = k
      · simp [alookup, hk]
      · simp [alookup, hk, ih, Ne.symm hk]

theorem alookup_setKey_isSome (l : List (κ × α)) (k k2 : κ) (v : α)
    (h : (alookup l k).isSome) :
    (alookup (setKey l k v) k2).isSome = (alookup l k2).isSome := by
  by_cases hk : k2 = k
  · subst hk
    rw [alookup_setKey_self]
    simp [h]
  · rw [alookup_setKey_ne _ _ _ _ hk]

end Lemmas

theorem mergeParm_ts_ge (old : Option PVal) (v : PVal) :
    v.mod_datetime ≤ (mergeParm old v).mod_datetime := by
  cases old with
  | none => simp [mergeParm]
  | some o =>
      unfold mergeParm
      by_cases h : o.mod_datetime < v.mod_datetime
      · simp [h]
      · simp [h]
        omega

theorem earlier_eq_true_iff (a b : Option Nat) :
    earlier a b = true ↔ ∃ x y, a = some x ∧ b = some y ∧ x < y := by
  cases a <;> cases b <;> simp [earlier]

theorem earlier_self_false (a : Option Nat) : earlier a a = false := by
  cases a <;> simp [earlier]

theorem earlier_true_isSome {a b : Option Nat} (h : earlier a b = true) :
    b.isSome = true := by
  cases a <;> cases b <;> simp_all [earlier]

theorem bodyPrep_eq (s : MState) (d : SO) :
    bodyPrep s d =
      { s with
        p := { s.p with
               parameterz := deserialize_parms s.p.parameterz d.oid d.parameters
               data_elementz :=
                 deserialize_des s.p.data_elementz d.oid d.data_elements }
        recompute_required := s.recompute_required || !d.parameters.isEmpty
        ignores := s.ignores ++ fkIgn d } := by
  obtain ⟨⟨st, pz, dz, cz, rz⟩, cur, oo, co, up, ig, a1, a2, a3, a4, rr, rf,
    ac, ps, pr, lo, b1, b2, b3⟩ := s
  unfold bodyPrep
  by_cases hde : d.data_elements = [] <;> by_cases hp : d.parameters = [] <;>
    simp [hde, hp, deserialize_parms, deserialize_des]

theorem refreshBlock_cases (s : MState) :
    refreshBlock s = s ∨
    ∃ a, refreshBlock s =
      { s with
        p := { s.p with
               componentz :=
                 setKey s.p.componentz a (deriveComponentz s.p.store a) }
        refreshed_componentz := s.refreshed_componentz ++ [a]
        refresh_comp_required := false } := by
  unfold refreshBlock
  split
  · split
    · exact Or.inl rfl
    · exact Or.inr ⟨_, rfl⟩
  · exact Or.inl rfl

theorem refreshBlock_of_flag_false (s : MState)
    (h : s.refresh_comp_required = false) : refreshBlock s = s := by
  unfold refreshBlock
  rw [h]
  simp

theorem updFlags_cases (s : MState) (d : SO) :
    ∃ b1 b2 : Bool,
      updFlags s d =
        { s with
          refresh_comp_required := b1 || s.refresh_comp_required
          recompute_required := b2 || s.recompute_required } ∧
      (b1 = true → d.cname = "Acu") := by
  unfold updFlags
  by_cases h2 : d.cname = "Acu" ∨ d.cname = "ProjectSystemUsage" ∨
    d.cname = "Requirement"
  · rw [if_pos h2]
    by_cases h1 : d.cname = "Acu"
    · exact ⟨true, true, by simp [h1], fun _ => h1⟩
    · exact ⟨false, true, by simp [h1], by simp⟩
  · rw [if_neg h2]
    by_cases h1 : d.cname = "Acu"
    · exact absurd (Or.inl h1) h2
    · exact ⟨false, false, by simp [h1], by simp⟩

theorem createFlags_cases (s : MState) (d : SO) :
    ∃ (la lp lr : List String) (b1 b2 : Bool),
      createFlags s d =
        { s with
          acus := s.acus ++ la
          psus := s.psus ++ lp
          products := s.products ++ lr
          refresh_comp_required := b1 || s.refresh_comp_required
          recompute_required := b2 || s.recompute_required } ∧
      (la ≠ [] → d.cname = "Acu") ∧
      (lp ≠ [] → d.cname = "ProjectSystemUsage") ∧
      (lr ≠ [] → d.cname ∈ productClasses) ∧
      (b1 = true → d.cname = "Acu") := by
  unfold createFlags
  by_cases h2 : d.cname = "Acu" ∨ d.cname = "ProjectSystemUsage" ∨
    d.cname = "Requirement"
  · rw [if_pos h2]
    by_cases h1 : d.cname = "Acu"
    · exact ⟨[d.oid], [], [], true, true,
        by simp [h1], fun _ => h1, by simp, by simp, fun _ => h1⟩
    · by_cases h1b : d.cname = "ProjectSystemUsage"
      · exact ⟨[], [d.oid], [], false, true,
          by simp [h1, h1b], by simp, fun _ => h1b, by simp, by simp⟩
      · by_cases h1c : d.cname ∈ productClasses
        · exact ⟨[], [], [d.oid], false, true,
            by simp [h1, h1b, h1c], by simp, by simp, fun _ => h1c, by simp⟩
        · exact ⟨[], [], [], false, true,
            by simp [h1, h1b, h1c], by simp, by simp, by simp, by simp⟩
  · rw [if_neg h2]
    by_cases h1 : d.cname = "Acu"
    · exact absurd (Or.inl h1) h2
    · by_cases h1b : d.cname = "ProjectSystemUsage"
      · exact absurd (Or.inr (Or.inl h1b)) h2
      · by_cases h1c : d.cname ∈ productClasses
        · exact ⟨[], [], [d.oid], false, false,
            by simp [h1, h1b, h1c], by simp, by simp, fun _ => h1c, by simp⟩
        · exact ⟨[], [], [], false, false,
            by simp [h1, h1b, h1c], by simp, by simp, by simp, by simp⟩

theorem bodyMain_update (dict : Bool) (s : MState) (d : SO) (ob : Obj)
    (h1 : d.oid ∈ s.updates) (h2 : d.oid ∉ s.ignores)
    (hob : alookup s.p.store d.oid = some ob) :
    bodyMain dict s d =
      updFlags
        { s with
          p := { s.p with
                 store := setKey s.p.store d.oid
                            (applyKw ob d (fkKw s.p.store d)) }
          objs_out := s.objs_out ++ [d.oid]
          last_obj := some d.oid } d := by
  unfold bodyMain
  rw [if_pos ⟨h1, h2⟩, hob]

theorem bodyMain_create (dict : Bool) (s : MState) (d : SO)
    (h1 : d.oid ∉ s.updates) (h2 : d.oid ∉ s.ignores) :
    bodyMain dict s d =
      createFlags
        { s with
          p := { s.p with
                 store := s.p.store ++ [(d.oid, newObj d (fkKw s.p.store d))] }
          objs_out := s.objs_out ++ [d.oid]
          created_oids := s.created_oids ++ [d.oid]
          current_oids := s.current_oids ++ [d.oid]
          out_new := if dict then s.out_new ++ [d.oid] else s.out_new
          last_obj := some d.oid } d := by
  unfold bodyMain
  rw [if_neg (fun hc => h1 hc.1), if_pos h2]

theorem bodyMain_skip (dict : Bool) (s : MState) (d : SO)
    (h : d.oid ∈ s.ignores) : bodyMain dict s d = s := by
  unfold bodyMain
  rw [if_neg (fun hc => hc.2 h), if_neg (fun hc => hc h)]

theorem bodyMain_cases (dict : Bool) (s : MState) (d : SO) :
    bodyMain dict s d = s ∨
    (∃ ob, alookup s.p.store d.oid = some ob ∧ d.oid ∈ s.updates ∧
      d.oid ∉ s.ignores ∧
      bodyMain dict s d =
        updFlags
          { s with
            p := { s.p with
                   store := setKey s.p.store d.oid
                              (applyKw ob d (fkKw s.p.store d)) }
            objs_out := s.objs_out ++ [d.oid]
            last_obj := some d.oid } d) ∨
    (d.oid ∉ s.updates ∧ d.oid ∉ s.ignores ∧
      bodyMain dict s d =
        createFlags
          { s with
            p := { s.p with
                   store := s.p.store ++ [(d.oid, newObj d (fkKw s.p.store d))] }
            objs_out := s.objs_out ++ [d.oid]
            created_oids := s.created_oids ++ [d.oid]
            current_oids := s.current_oids ++ [d.oid]
            out_new := if dict then s.out_new ++ [d.oid] else s.out_new
            last_obj := some d.oid } d) := by
  by_cases hc1 : d.oid ∈ s.updates ∧ d.oid ∉ s.ignores
  · cases heq : alookup s.p.store d.oid with
    | none =>
        refine Or.inl ?_
        unfold bodyMain
        rw [if_pos hc1, heq]
    | some ob =>
        refine Or.inr (Or.inl ⟨ob, rfl, hc1.1, hc1.2, ?_⟩)
        unfold bodyMain
        rw [if_pos hc1, heq]
  · by_cases hc2 : d.oid ∈ s.ignores
    · exact Or.inl (bodyMain_skip dict s d hc2)
    · have h1 : d.oid ∉ s.updates := fun hA => hc1 ⟨hA, hc2⟩
      exact Or.inr (Or.inr ⟨h1, hc2, bodyMain_create dict s d h1 hc2⟩)

theorem processBody_frame (dict : Bool) (s : MState) (d : SO) :
    (processBody dict s d).updates = s.updates ∧
    (processBody dict s d).out_modified = s.out_modified ∧
    (processBody dict s d).out_unmodified = s.out_unmodified ∧
    (processBody dict s d).out_error = s.out_error ∧
    (processBody dict s d).ignores = s.ignores ++ fkIgn d ∧
    (processBody dict s d).p.parameterz =
      deserialize_parms s.p.parameterz d.oid d.parameters ∧
    (processBody dict s d).p.data_elementz =
      deserialize_des s.p.data_elementz d.oid d.data_elements ∧
    (processBody dict s d).p.req_allocz = s.p.req_allocz ∧
    (processBody dict s d).refreshed_req_allocz = s.refreshed_req_allocz ∧
    (processBody dict s d).recomputed_parm_oids = s.recomputed_parm_oids := by
  unfold processBody
  rw [bodyPrep_eq]
  rcases bodyMain_cases dict _ d with h | ⟨ob, hob, h1, h2, h⟩ | ⟨h1, h2, h⟩ <;>
    rw [h]
  · rcases refreshBlock_cases _ with hr | ⟨a, hr⟩ <;> rw [hr] <;>
      exact ⟨rfl, rfl, rfl, rfl, rfl, rfl, rfl, rfl, rfl, rfl⟩
  · obtain ⟨b1, b2, hu, hub1⟩ := updFlags_cases _ d
    rw [hu]
    rcases refreshBlock_cases _ with hr | ⟨a, hr⟩ <;> rw [hr] <;>
      exact ⟨rfl, rfl, rfl, rfl, rfl, rfl, rfl, rfl, rfl, rfl⟩
  · obtain ⟨la, lp, lr, b1, b2, hcf, _⟩ := createFlags_cases _ d
    rw [hcf]
    rcases refreshBlock_cases _ with hr | ⟨a, hr⟩ <;> rw [hr] <;>
      exact ⟨rfl, rfl, rfl, rfl, rfl, rfl, rfl, rfl, rfl, rfl⟩

theorem processRecord_fresh (force dict : Bool) (s : MState) (d : SO)
    (h : d.oid ∉ s.current_oids) :
    processRecord force dict s d = processBody dict s d := by
  unfold processRecord
  rw [if_neg h]

theorem processRecord_ignore (dict : Bool) (s : MState) (d : SO) (ob : Obj)
    (hcur : d.oid ∈ s.current_oids)
    (hob : alookup s.p.store d.oid = some ob)
    (hE : earlier ob.mod_datetime d.mod_datetime = false) :
    processRecord false dict s d =
      { s with
        ignores := s.ignores ++ [d.oid]
        out_unmodified :=
          if dict then s.out_unmodified ++ [d.oid] else s.out_unmodified } := by
  unfold processRecord
  rw [if_pos hcur, hob]
  rw [if_neg (by simp)]
  rw [if_pos]
  intro hc
  obtain ⟨h1, h2, h3⟩ := hc
  simp [hE] at h3

theorem processRecord_update (dict : Bool) (s : MState) (d : SO) (ob : Obj)
    (hcur : d.oid ∈ s.current_oids)
    (hob : alookup s.p.store d.oid = some ob)
    (hE : earlier ob.mod_datetime d.mod_datetime = true) :
    processRecord false dict s d =
      processBody dict
        { s with
          updates := s.updates ++ [d.oid]
          out_modified :=
            if dict then s.out_modified ++ [d.oid] else s.out_modified } d := by
  unfold processRecord
  rw [if_pos hcur, hob]
  rw [if_neg (by simp)]
  rw [if_neg]
  intro hc
  exact absurd ⟨earlier_true_isSome hE, by simp, by simpa using hE⟩ hc

theorem fkIgn_foldl_mono (d : SO) (l : List String) (init : List String)
    (x : String) (hx : x ∈ init) :
    x ∈ l.foldl
      (fun ign fk =>
        if fkVal d fk ≠ "" then ign
        else
          let ign1 :=
            if fk = "of_product" ∧ d.cname = "Port" then ign ++ [d.oid] else ign
          if fk = "start_port" ∨ fk = "end_port" ∨ fk = "flow_context" then
            ign1 ++ [d.oid]
          else ign1) init := by
  induction l generalizing init with
  | nil => simpa using hx
  | cons fk rest ih =>
      refine ih _ ?_
      dsimp only
      split
      · exact hx
      · split <;> split <;> simp [hx]

theorem fkIgn_mem_of_empty (d : SO) (fk : String)
    (hmem : fk ∈ fkFields d.cname) (hempty : fkVal d fk = "")
    (hrel : (fk = "of_product" ∧ d.cname = "Port") ∨
            fk = "start_port" ∨ fk = "end_port" ∨ fk = "flow_context") :
    d.oid ∈ fkIgn d := by
  unfold fkIgn
  obtain ⟨pre, post, hsplit⟩ := List.append_of_mem hmem
  rw [hsplit, List.foldl_append, List.foldl_cons]
  apply fkIgn_foldl_mono
  dsimp only
  split
  · next hv => exact absurd hempty hv
  · rcases hrel with ⟨hp, hc⟩ | hf | hf | hf
    · subst hp
      split
      · next h2 => rcases h2 with h | h | h <;> exact absurd h (by decide)
      · split
        · simp
        · next h1 => exact absurd ⟨rfl, hc⟩ h1
    · subst hf
      split
      · split <;> simp
      · next h2 => exact absurd (Or.inl rfl) h2
    · subst hf
      split
      · split <;> simp
      · next h2 => exact absurd (Or.inr (Or.inl rfl)) h2
    · subst hf
      split
      · split <;> simp
      · next h2 => exact absurd (Or.inr (Or.inr rfl)) h2

theorem fkIgn_mem_of_hard_required (d : SO)
    (hreq : (d.cname = "Port" ∧ fkVal d "of_product" = "") ∨
            (d.cname = "Flow" ∧
              (fkVal d "start_port" = "" ∨ fkVal d "end_port" = "" ∨
               fkVal d "flow_context" = ""))) :
    d.oid ∈ fkIgn d := by
  rcases hreq with ⟨hcn, he⟩ | ⟨hcn, he⟩
  · exact fkIgn_mem_of_empty d "of_product" (by rw [hcn]; decide) he
      (Or.inl ⟨rfl, hcn⟩)
  · rcases he with he | he | he
    · exact fkIgn_mem_of_empty d "start_port" (by rw [hcn]; decide) he
        (Or.inr (Or.inl rfl))
    · exact fkIgn_mem_of_empty d "end_port" (by rw [hcn]; decide) he
        (Or.inr (Or.inr (Or.inl rfl)))
    · exact fkIgn_mem_of_empty d "flow_context" (by rw [hcn]; decide) he
        (Or.inr (Or.inr (Or.inr rfl)))

theorem fkIgn_eq_oid (d : SO) : ∀ x ∈ fkIgn d, x = d.oid := by
  unfold fkIgn
  have main : ∀ (l : List String) (init : List String),
      (∀ x ∈ init, x = d.oid) →
      ∀ x ∈ l.foldl
        (fun ign fk =>
          if fkVal d fk ≠ "" then ign
          else
            let ign1 :=
              if fk = "of_product" ∧ d.cname = "Port" then ign ++ [d.oid]
              else ign
            if fk = "start_port" ∨ fk = "end_port" ∨ fk = "flow_context" then
              ign1 ++ [d.oid]
            else ign1) init, x = d.oid := by
    intro l
    induction l with
    | nil => intro init h x hx; exact h x (by simpa using hx)
    | cons fk rest ih =>
        intro init h x hx
        refine ih _ ?_ x hx
        intro y hy
        dsimp only at hy
        split at hy
        · exact h y hy
        · split at hy
          · rw [List.mem_append] at hy
            rcases hy with hy | hy
            · split at hy
              · rw [List.mem_append] at hy
                rcases hy with hy | hy
                · exact h y hy
                · simpa using hy
              · exact h y hy
            · simpa using hy
          · split at hy
            · rw [List.mem_append] at hy
              rcases hy with hy | hy
              · exact h y hy
              · simpa using hy
            · exact h y hy
  exact main _ [] (by simp)

theorem fkIgn_flow_all_present (d : SO) (hcn : d.cname = "Flow")
    (h1 : fkVal d "start_port" ≠ "") (h2 : fkVal d "end_port" ≠ "")
    (h3 : fkVal d "flow_context" ≠ "") : fkIgn d = [] := by
  unfold fkIgn
  rw [hcn]
  have hf : fkFields "Flow" = ["start_port", "end_port", "flow_context"] := by
    decide
  rw [hf]
  simp [h1, h2, h3]

theorem fkKw_flow (st : List (String × Obj)) (d : SO) (hcn : d.cname = "Flow")
    (h1 : fkVal d "start_port" ≠ "") (h2 : fkVal d "end_port" ≠ "")
    (h3 : fkVal d "flow_context" ≠ "") :
    fkKw st d =
      [("start_port", resolveFk st (fkVal d "start_port")),
       ("end_port", resolveFk st (fkVal d "end_port")),
       ("flow_context", resolveFk st (fkVal d "flow_context"))] := by
  unfold fkKw
  rw [hcn]
  have hf : fkFields "Flow" = ["start_port", "end_port", "flow_context"] := by
    decide
  rw [hf]
  simp [List.filterMap, h1, h2, h3]

theorem processRecord_update_store (dict : Bool) (s : MState) (d : SO)
    (ob : Obj) (hcur : d.oid ∈ s.current_oids)
    (hob : alookup s.p.store d.oid = some ob)
    (hE : earlier ob.mod_datetime d.mod_datetime = true)
    (hign : d.oid ∉ s.ignores) (hfk : fkIgn d = []) :
    alookup (processRecord false dict s d).p.store d.oid =
      some (applyKw ob d (fkKw s.p.store d)) := by
  rw [processRecord_update dict s d ob hcur hob hE]
  unfold processBody
  rw [bodyPrep_eq]
  rw [bodyMain_update dict _ d ob (by simp) (by simp [hfk, hign])
        (by exact hob)]
  obtain ⟨b1, b2, hu, hub1⟩ := updFlags_cases _ d
  rw [hu]
  rcases refreshBlock_cases _ with hr | ⟨a, hr⟩ <;> rw [hr] <;>
    exact alookup_setKey_self _ _ _

/-- C1: for a record whose oid already exists in the store, with
force_update unset, the timestamp gate of lines 193-221 decides the
outcome: when the incoming mod_datetime is not strictly later (equal,
earlier, or missing) the record is classified ignored and the state -
store included - changes only by that bookkeeping; when it is strictly
later the record is applied as an update (its oid joins the update set and,
for a record with no invalid hard-required fks, the stored object is
rewritten from the record, carrying the record timestamp); equal
timestamps are never strictly later, hence never an update. -/
theorem c1_timestamp_gate (dict : Bool) (s : MState) (d : SO) (ob : Obj)
    (hcur : d.oid ∈ s.current_oids)
    (hob : alookup s.p.store d.oid = some ob) :
    (earlier ob.mod_datetime d.mod_datetime = false →
       processRecord false dict s d =
         { s with
           ignores := s.ignores ++ [d.oid]
           out_unmodified :=
             if dict then s.out_unmodified ++ [d.oid] else s.out_unmodified }) ∧
    (earlier ob.mod_datetime d.mod_datetime = true →
       d.oid ∈ (processRecord false dict s d).updates) ∧
    (earlier ob.mod_datetime d.mod_datetime = true → d.oid ∉ s.ignores →
       fkIgn d = [] →
       alookup (processRecord false dict s d).p.store d.oid =
         some (applyKw ob d (fkKw s.p.store d)) ∧
       (applyKw ob d (fkKw s.p.store d)).mod_datetime = d.mod_datetime) ∧
    (∀ t : Nat, earlier (some t) (some t) = false) := by
  refine ⟨?_, ?_, ?_, fun t => earlier_self_false (some t)⟩
  · intro hE
    exact processRecord_ignore dict s d ob hcur hob hE
  · intro hE
    rw [processRecord_update dict s d ob hcur hob hE]
    rw [(processBody_frame dict _ d).1]
    simp
  · intro hE hign hfk
    exact ⟨processRecord_update_store dict s d ob hcur hob hE hign hfk, rfl⟩

theorem c1_timestamp_gate_witness :
    (processRecord false false (initState pSt1) dP1eq).ignores = ["P1"] ∧
    (processRecord false false (initState pSt1) dP1eq).p.store = pSt1.store := by
  have h :=
    (c1_timestamp_gate false (initState pSt1) dP1eq obP1 (by decide)
      (by decide)).1 (by decide)
  rw [h]
  exact ⟨rfl, rfl⟩

/-- C2 counterexample: the record dP1eq for the stored P1 has an equal
object timestamp (so it is ignored) and carries a parameter whose per-field
timestamp is strictly later than the cached one; the claim says the
parameter section is still merged field by field, but the merge leaves the
parameter cache unchanged, while the field-by-field merge of that section
would have changed it. -/
theorem c2_subfields_not_processed_cex :
    "P1" ∈ (runDeserialize pSt1 [some dP1eq] false false false false).2.ignores ∧
    (runDeserialize pSt1 [some dP1eq] false false false false).2.p.parameterz =
      pSt1.parameterz ∧
    deserialize_parms pSt1.parameterz "P1" dP1eq.parameters ≠ pSt1.parameterz := by
  decide

/-- C2 amended: the parameters and data_elements sections of a record are
merged (field by field, under their own per-field timestamps) only when the
record passes the object-level timestamp gate; a record ignored at the
object level has its sections skipped entirely, because the ignore branch
ends the iteration before the sub-merge calls of lines 236-254. -/
theorem c2_subfield_merge_gated (dict : Bool) (s : MState) (d : SO) (ob : Obj)
    (hcur : d.oid ∈ s.current_oids)
    (hob : alookup s.p.store d.oid = some ob) :
    (earlier ob.mod_datetime d.mod_datetime = false →
       (processRecord false dict s d).p.parameterz = s.p.parameterz ∧
       (processRecord false dict s d).p.data_elementz = s.p.data_elementz) ∧
    (earlier ob.mod_datetime d.mod_datetime = true →
       (processRecord false dict s d).p.parameterz =
         deserialize_parms s.p.parameterz d.oid d.parameters ∧
       (processRecord false dict s d).p.data_elementz =
         deserialize_des s.p.data_elementz d.oid d.data_elements) := by
  constructor
  · intro hE
    rw [processRecord_ignore dict s d ob hcur hob hE]
    exact ⟨rfl, rfl⟩
  · intro hE
    rw [processRecord_update dict s d ob hcur hob hE]
    have h := processBody_frame dict
      { s with
        updates := s.updates ++ [d.oid]
        out_modified :=
          if dict then s.out_modified ++ [d.oid] else s.out_modified } d
    exact ⟨h.2.2.2.2.2.1, h.2.2.2.2.2.2.1⟩

theorem c2_subfield_merge_gated_witness :
    (processRecord false false (initState pSt1) dP1new).p.parameterz =
      deserialize_parms pSt1.parameterz "P1" dP1new.parameters := by
  have h :=
    (c2_subfield_merge_gated false (initState pSt1) dP1new obP1 (by decide)
      (by decide)).2 (by decide)
  exact h.1

/-- C6 counterexample: the Port record dPort has an empty hard-required
of_product field.  The merge does not create the object, but the outcome
has no rejected set - the oid lands only in the internal ignores list while
the dictify result (including its error key) stays empty - and the
parameter section of the rejected record has already been merged into the
parameter cache, a propagated side effect. -/
theorem c6_rejected_side_effects_cex :
    alookup (runDeserialize pSt1 [some dPort] false true false false).2.p.store
      "PT1" = none ∧
    "PT1" ∈ (runDeserialize pSt1 [some dPort] false true false false).2.ignores ∧
    (runDeserialize pSt1 [some dPort] false true false false).1 =
      Ret.dict [] [] [] [] ∧
    alookup
      (runDeserialize pSt1 [some dPort] false true false false).2.p.parameterz
      ("PT1", "m") = some ⟨7, "kg", 3⟩ := by
  decide

/-- C6 amended: a record of a hard-required type whose hard-required fk
field is empty (a Port without of_product, a Flow missing start_port,
end_port or flow_context) is not created and its oid is classified into the
internal ignores list - the outcome has no separate rejected set and the
dictify error list stays empty - but the embedded parameter and
data-element sub-merges are applied before the validity check and do
propagate. -/
theorem c6_hard_required_empty (force dict : Bool) (s : MState) (d : SO)
    (hreq : (d.cname = "Port" ∧ fkVal d "of_product" = "") ∨
            (d.cname = "Flow" ∧
              (fkVal d "start_port" = "" ∨ fkVal d "end_port" = "" ∨
               fkVal d "flow_context" = "")))
    (hcur : d.oid ∉ s.current_oids)
    (hflag : s.refresh_comp_required = false) :
    (processRecord force dict s d).p.store = s.p.store ∧
    d.oid ∈ (processRecord force dict s d).ignores ∧
    (processRecord force dict s d).created_oids = s.created_oids ∧
    (processRecord force dict s d).p.parameterz =
      deserialize_parms s.p.parameterz d.oid d.parameters ∧
    (processRecord force dict s d).out_error = s.out_error ∧
    (processRecord force dict s d).out_new = s.out_new := by
  rw [processRecord_fresh force dict s d hcur]
  unfold processBody
  rw [bodyPrep_eq]
  rw [bodyMain_skip dict _ d
        (by exact List.mem_append_right _ (fkIgn_mem_of_hard_required d hreq))]
  rw [refreshBlock_of_flag_false _ (by exact hflag)]
  exact ⟨rfl,
    List.mem_append_right _ (fkIgn_mem_of_hard_required d hreq),
    rfl, rfl, rfl, rfl⟩

theorem c6_hard_required_empty_witness :
    (processRecord false false (initState pSt1) dPort).p.store = pSt1.store ∧
    "PT1" ∈ (processRecord false false (initState pSt1) dPort).ignores := by
  have h :=
    c6_hard_required_empty false false (initState pSt1) dPort
      (Or.inl ⟨rfl, by decide⟩) (by decide) (by decide)
  exact ⟨h.1, h.2.1⟩

/-- C7 counterexample: the Flow record dFlow carries non-empty oids in all
three hard-required fk fields, none of which resolves to an object in the
batch or the store; the claim says the record is rejected and no object
created, but the merge creates the Flow with all three references unset. -/
theorem c7_unresolvable_fk_cex :
    "F1" ∈ (runDeserialize pSt1 [some dFlow] false false false false).2.created_oids ∧
    (runDeserialize pSt1 [some dFlow] false false false false).2.ignores = [] ∧
    alookup (runDeserialize pSt1 [some dFlow] false false false false).2.p.store
      "F1" =
      some { cname := "Flow", mod_datetime := some 3, name := none,
             fks := [("start_port", none), ("end_port", none),
                     ("flow_context", none)] } := by
  decide

/-- C7 amended: a linking-type record (a Flow) whose hard-required fk fields
all carry non-empty oids is never rejected, even when an oid resolves to no
object in the store: the record is created, each unresolvable reference
being stored as unset (None), because the fk loop of lines 262-292 flags a
record only when the field value itself is empty. -/
theorem c7_unresolvable_fk_creates (force dict : Bool) (s : MState) (d : SO)
    (hcn : d.cname = "Flow")
    (h1 : fkVal d "start_port" ≠ "") (h2 : fkVal d "end_port" ≠ "")
    (h3 : fkVal d "flow_context" ≠ "")
    (hcur : d.oid ∉ s.current_oids)
    (hupd : d.oid ∉ s.updates)
    (hign : d.oid ∉ s.ignores)
    (hflag : s.refresh_comp_required = false)
    (hlk : alookup s.p.store d.oid = none) :
    alookup (processRecord force dict s d).p.store d.oid =
      some (newObj d (fkKw s.p.store d)) ∧
    d.oid ∈ (processRecord force dict s d).created_oids ∧
    (processRecord force dict s d).ignores = s.ignores ∧
    (alookup s.p.store (fkVal d "start_port") = none →
      alookup (newObj d (fkKw s.p.store d)).fks "start_port" = some none) := by
  have hfkE : fkIgn d = [] := fkIgn_flow_all_present d hcn h1 h2 h3
  rw [processRecord_fresh force dict s d hcur]
  unfold processBody
  rw [bodyPrep_eq]
  rw [bodyMain_create dict _ d (by exact hupd) (by simp [hfkE, hign])]
  obtain ⟨la, lp, lr, b1, b2, hcf, _, _, _, hb1⟩ := createFlags_cases _ d
  rw [hcf]
  have hb1f : b1 = false := by
    cases hb : b1
    · rfl
    · have hAcu := hb1 hb
      rw [hcn] at hAcu
      exact absurd hAcu (by decide)
  rw [refreshBlock_of_flag_false _ (by simp [hb1f, hflag])]
  refine ⟨?_, ?_, ?_, ?_⟩
  · exact alookup_append_single_self _ _ _ hlk
  · simp
  · simp [hfkE]
  · intro hres
    rw [fkKw_flow s.p.store d hcn h1 h2 h3]
    simp [newObj, alookup, resolveFk, hres]

theorem c7_unresolvable_fk_creates_witness :
    alookup (processRecord false false (initState pSt1) dFlow).p.store "F1" =
      some (newObj dFlow (fkKw pSt1.store dFlow)) ∧
    "F1" ∈ (processRecord false false (initState pSt1) dFlow).created_oids ∧
    alookup (newObj dFlow (fkKw pSt1.store dFlow)).fks "start_port" =
      some none := by
  have h :=
    c7_unresolvable_fk_creates false false (initState pSt1) dFlow rfl
      (by decide) (by decide) (by decide) (by decide) (by decide) (by decide)
      (by decide) (by decide)
  exact ⟨h.1, h.2.1, h.2.2.2 (by decide)⟩

/-- C3 counterexample: the oid X is recorded in the trash registry, does
not exist in the store, and a batch containing a record for X is merged;
the merge creates a live object X and classifies nothing as
rejected/ignored - deserialize never consults the trash, so a tombstoned
identity is recreated. -/
theorem c3_tombstone_not_consulted_cex :
    "X" ∈ trashC ∧
    "X" ∈ (runDeserialize pSt1 [some dX] false false false false).2.created_oids ∧
    alookup (runDeserialize pSt1 [some dX] false false false false).2.p.store
      "X" =
      some { cname := "Product", mod_datetime := some 7, name := none,
             fks := [] } ∧
    (runDeserialize pSt1 [some dX] false false false false).2.ignores = [] := by
  decide

/-- C3 amended: the tombstone registry (trash) is not consulted by the
merge itself - a batch containing a tombstoned oid recreates the object -
and tombstone precedence operates only at reconciliation: the login-time
restore set is remote minus local minus trash, so a tombstoned oid is never
restored by the sync. -/
theorem c3_tombstone_only_at_reconcile (remote localOids trash : List String)
    (o : String) (h : o ∈ trash) : o ∉ reconcile remote localOids trash := by
  intro hmem
  unfold reconcile at hmem
  rw [List.mem_filter] at hmem
  have h2 := hmem.2
  simp at h2
  exact h2.2 h

theorem c3_tombstone_only_at_reconcile_witness :
    "X" ∉ reconcile ["X", "Y"] [] trashC :=
  c3_tombstone_only_at_reconcile ["X", "Y"] [] trashC "X" (by decide)

theorem prefilter_eq_nil (batch : List (Option SO))
    (h : ∀ x ∈ batch, (x.map SO.oid).getD "" = "") : prefilter batch = [] := by
  induction batch with
  | nil => rfl
  | cons x rest ih =>
      have hx := h x (List.mem_cons_self x rest)
      have hrest := ih (fun y hy => h y (List.mem_cons_of_mem x hy))
      cases x with
      | none => simpa [prefilter, List.filterMap_cons] using hrest
      | some so =>
          simp at hx
          simpa [prefilter, List.filterMap_cons, hx] using hrest

/-- C10: a batch that is empty, or in which every record is falsy or has no
oid value, makes deserialize return the empty list - also under
dictify=true, where the caller receives the empty list instead of the
documented dictionary - and leaves the state untouched. -/
theorem c10_degenerate_batch (p : PState) (ir dict fnr force : Bool)
    (batch : List (Option SO))
    (h : ∀ x ∈ batch, (x.map SO.oid).getD "" = "") :
    runDeserialize p batch ir dict fnr force = (Ret.objs [], initState p) := by
  by_cases hb : batch = []
  · subst hb
    rfl
  · unfold runDeserialize
    rw [if_neg hb, if_pos (prefilter_eq_nil batch h)]

theorem c10_degenerate_batch_witness :
    runDeserialize pSt1 [none, some soBase] false true false false =
      (Ret.objs [], initState pSt1) :=
  c10_degenerate_batch pSt1 false true false false [none, some soBase]
    (by decide)

theorem tsStep_trans {ob1 ob2 ob3 : Obj} (h1 : tsStep ob1 ob2)
    (h2 : tsStep ob2 ob3) : tsStep ob1 ob3 := by
  rcases h1 with rfl | ⟨x, y, hx, hy, hxy⟩
  · exact h2
  · rcases h2 with rfl | ⟨x2, y2, hx2, hy2, hxy2⟩
    · exact Or.inr ⟨x, y, hx, hy, hxy⟩
    · rw [hy] at hx2
      injection hx2 with he
      exact Or.inr ⟨x, y2, hx, hy2, by omega⟩

theorem processRecord_cases (force dict : Bool) (s : MState) (d : SO) :
    processRecord force dict s d = s ∨
    processRecord force dict s d =
      { s with
        ignores := s.ignores ++ [d.oid]
        out_unmodified :=
          if dict then s.out_unmodified ++ [d.oid] else s.out_unmodified } ∨
    (d.oid ∉ s.current_oids ∧
      processRecord force dict s d = processBody dict s d) ∨
    (d.oid ∈ s.current_oids ∧
      (force = true ∨
        (d.mod_datetime.isSome = true ∧
         (alookup s.p.store d.oid).isSome = true ∧
         earlier (((alookup s.p.store d.oid).map Obj.mod_datetime).getD none)
           d.mod_datetime = true)) ∧
      processRecord force dict s d =
        processBody dict
          { s with
            updates := s.updates ++ [d.oid]
            out_modified :=
              if dict then s.out_modified ++ [d.oid] else s.out_modified } d) := by
  unfold processRecord
  by_cases hcur : d.oid ∈ s.current_oids
  · rw [if_pos hcur]
    by_cases hf : force = true ∧ (alookup s.p.store d.oid).isSome = true
    · rw [if_pos hf]
      exact Or.inr (Or.inr (Or.inr ⟨hcur, Or.inl hf.1, rfl⟩))
    · rw [if_neg hf]
      by_cases hg : ¬ (d.mod_datetime.isSome = true ∧
          (alookup s.p.store d.oid).isSome = true ∧
          earlier (((alookup s.p.store d.oid).map Obj.mod_datetime).getD none)
            d.mod_datetime = true)
      · rw [if_pos hg]
        exact Or.inr (Or.inl rfl)
      · rw [if_neg hg]
        have htrip := not_not.mp hg
        cases hdb : alookup s.p.store d.oid with
        | none =>
            rw [hdb] at htrip
            simp at htrip
        | some ob =>
            rw [hdb] at htrip
            exact Or.inr (Or.inr (Or.inr ⟨hcur, Or.inr htrip, rfl⟩))
  · rw [if_neg hcur]
    exact Or.inr (Or.inr (Or.inl ⟨hcur, rfl⟩))

theorem processBody_store_frame (dict : Bool) (s : MState) (d : SO)
    (oid : String) (hne : oid ≠ d.oid) :
    alookup (processBody dict s d).p.store oid = alookup s.p.store oid := by
  unfold processBody
  rw [bodyPrep_eq]
  rcases bodyMain_cases dict _ d with h | ⟨ob, hob, _, _, h⟩ | ⟨_, _, h⟩ <;>
    rw [h]
  · rcases refreshBlock_cases _ with hr | ⟨a, hr⟩ <;> rw [hr]
  · obtain ⟨b1, b2, hu, hub1⟩ := updFlags_cases _ d
    rw [hu]
    rcases refreshBlock_cases _ with hr | ⟨a, hr⟩ <;> rw [hr] <;>
      exact alookup_setKey_ne _ _ _ _ hne
  · obtain ⟨la, lp, lr, b1, b2, hcf, _⟩ := createFlags_cases _ d
    rw [hcf]
    rcases refreshBlock_cases _ with hr | ⟨a, hr⟩ <;> rw [hr] <;>
      exact alookup_append_single_ne _ _ _ _ hne

theorem processBody_current (dict : Bool) (s : MState) (d : SO) :
    (processBody dict s d).current_oids = s.current_oids ∨
    (processBody dict s d).current_oids = s.current_oids ++ [d.oid] := by
  unfold processBody
  rw [bodyPrep_eq]
  rcases bodyMain_cases dict _ d with h | ⟨ob, hob, _, _, h⟩ | ⟨_, _, h⟩ <;>
    rw [h]
  · rcases refreshBlock_cases _ with hr | ⟨a, hr⟩ <;> rw [hr]
    · exact Or.inl rfl
    · exact Or.inl rfl
  · obtain ⟨b1, b2, hu, hub1⟩ := updFlags_cases _ d
    rw [hu]
    rcases refreshBlock_cases _ with hr | ⟨a, hr⟩ <;> rw [hr]
    · exact Or.inl rfl
    · exact Or.inl rfl
  · obtain ⟨la, lp, lr, b1, b2, hcf, _⟩ := createFlags_cases _ d
    rw [hcf]
    rcases refreshBlock_cases _ with hr | ⟨a, hr⟩ <;> rw [hr]
    · exact Or.inr rfl
    · exact Or.inr rfl

theorem processBody_store_self (dict : Bool) (s : MState) (d : SO)
    (ob : Obj) (hob : alookup s.p.store d.oid = some ob) :
    ∃ ob2, alookup (processBody dict s d).p.store d.oid = some ob2 ∧
      (ob2 = ob ∨
       (d.oid ∈ s.updates ∧ ob2 = applyKw ob d (fkKw s.p.store d))) := by
  unfold processBody
  rw [bodyPrep_eq]
  rcases bodyMain_cases dict _ d with h | ⟨ob1, hob1, hup, _, h⟩ |
      ⟨_, _, h⟩ <;> rw [h]
  · rcases refreshBlock_cases _ with hr | ⟨a, hr⟩ <;> rw [hr] <;>
      exact ⟨ob, hob, Or.inl rfl⟩
  · have hoo : ob1 = ob := by
      have h2 : some ob1 = some ob := by rw [← hob1, ← hob]
      injection h2
    subst hoo
    obtain ⟨b1, b2, hu, hub1⟩ := updFlags_cases _ d
    rw [hu]
    rcases refreshBlock_cases _ with hr | ⟨a, hr⟩ <;> rw [hr] <;>
      exact ⟨applyKw ob1 d (fkKw s.p.store d), alookup_setKey_self _ _ _,
        Or.inr ⟨by simpa using hup, rfl⟩⟩
  · obtain ⟨la, lp, lr, b1, b2, hcf, _⟩ := createFlags_cases _ d
    rw [hcf]
    rcases refreshBlock_cases _ with hr | ⟨a, hr⟩ <;> rw [hr] <;>
      refine ⟨ob, ?_, Or.inl rfl⟩ <;>
      · rw [alookup_append]
        rw [show alookup s.p.store d.oid = some ob from hob]

theorem processRecord_store_mono (dict : Bool) (s : MState) (d : SO)
    (hsub : ∀ o ∈ s.updates, o ∈ s.current_oids)
    (oid : String) (ob : Obj) (hob : alookup s.p.store oid = some ob) :
    ∃ ob2, alookup (processRecord false dict s d).p.store oid = some ob2 ∧
      tsStep ob ob2 := by
  rcases processRecord_cases false dict s d with h | h | ⟨hcur, h⟩ |
    ⟨hcur, hgate, h⟩
  · rw [h]
    exact ⟨ob, hob, Or.inl rfl⟩
  · rw [h]
    exact ⟨ob, hob, Or.inl rfl⟩
  · rw [h]
    by_cases hne : oid = d.oid
    · subst hne
      obtain ⟨ob2, hl, hc⟩ := processBody_store_self dict s d ob hob
      rcases hc with rfl | ⟨hup, rfl⟩
      · exact ⟨ob2, hl, Or.inl rfl⟩
      · exact absurd (hsub d.oid hup) hcur
    · rw [processBody_store_frame dict s d oid hne, hob]
      exact ⟨ob, rfl, Or.inl rfl⟩
  · rw [h]
    rcases hgate with hgate | ⟨hms, hdbs, hE⟩
    · exact absurd hgate (by simp)
    by_cases hne : oid = d.oid
    · subst hne
      rw [hob] at hE
      simp only [Option.map, Option.getD] at hE
      obtain ⟨ob2, hl, hc⟩ :=
        processBody_store_self dict
          { s with
            updates := s.updates ++ [d.oid]
            out_modified :=
              if dict then s.out_modified ++ [d.oid] else s.out_modified } d
          ob hob
      rcases hc with rfl | ⟨hup, rfl⟩
      · exact ⟨ob2, hl, Or.inl rfl⟩
      · obtain ⟨x, y, hx, hy, hxy⟩ := (earlier_eq_true_iff _ _).mp hE
        refine ⟨_, hl, Or.inr ⟨x, y, hx, ?_, hxy⟩⟩
        exact hy
    · rw [processBody_store_frame dict _ d oid hne]
      exact ⟨ob, hob, Or.inl rfl⟩

theorem processRecord_sub_inv (force dict : Bool) (s : MState) (d : SO)
    (hsub : ∀ o ∈ s.updates, o ∈ s.current_oids) :
    ∀ o ∈ (processRecord force dict s d).updates,
      o ∈ (processRecord force dict s d).current_oids := by
  rcases processRecord_cases force dict s d with h | h | ⟨hcur, h⟩ |
    ⟨hcur, _, h⟩ <;> rw [h]
  · exact hsub
  · exact hsub
  · intro o ho
    rw [(processBody_frame dict s d).1] at ho
    rcases processBody_current dict s d with hc | hc <;> rw [hc]
    · exact hsub o ho
    · exact List.mem_append_left _ (hsub o ho)
  · intro o ho
    rw [(processBody_frame dict _ d).1] at ho
    rcases processBody_current dict _ d with hc | hc <;> rw [hc] <;>
    · rcases List.mem_append.mp ho with ho | ho
      · first
        | exact hsub o ho
        | exact List.mem_append_left _ (hsub o ho)
      · rw [List.mem_singleton] at ho
        subst ho
        first
        | exact hcur
        | exact List.mem_append_left _ hcur

theorem foldl_store_mono (dict : Bool) (recs : List SO) (s : MState)
    (hsub : ∀ o ∈ s.updates, o ∈ s.current_oids)
    (oid : String) (ob : Obj) (hob : alookup s.p.store oid = some ob) :
    ∃ ob2,
      alookup (recs.foldl (processRecord false dict) s).p.store oid =
        some ob2 ∧ tsStep ob ob2 := by
  induction recs generalizing s ob with
  | nil => exact ⟨ob, hob, Or.inl rfl⟩
  | cons d rest ih =>
      obtain ⟨ob1, h1, hs1⟩ := processRecord_store_mono dict s d hsub oid ob hob
      obtain ⟨ob2, h2, hs2⟩ :=
        ih (processRecord false dict s d)
          (processRecord_sub_inv false dict s d hsub) ob1 h1
      exact ⟨ob2, by simpa using h2, tsStep_trans hs1 hs2⟩

theorem postLoop_frame (fnr : Bool) (s : MState) :
    (postLoop fnr s).p.store = s.p.store ∧
    (postLoop fnr s).p.parameterz = s.p.parameterz ∧
    (postLoop fnr s).p.data_elementz = s.p.data_elementz ∧
    (postLoop fnr s).p.componentz = s.p.componentz ∧
    (postLoop fnr s).ignores = s.ignores ∧
    (postLoop fnr s).created_oids = s.created_oids ∧
    (postLoop fnr s).updates = s.updates ∧
    (postLoop fnr s).objs_out = s.objs_out ∧
    (postLoop fnr s).out_new = s.out_new ∧
    (postLoop fnr s).out_modified = s.out_modified ∧
    (postLoop fnr s).out_unmodified = s.out_unmodified ∧
    (postLoop fnr s).out_error = s.out_error ∧
    (postLoop fnr s).refreshed_componentz = s.refreshed_componentz := by
  unfold postLoop
  dsimp only
  repeat' split
  all_goals
    exact ⟨rfl, rfl, rfl, rfl, rfl, rfl, rfl, rfl, rfl, rfl, rfl, rfl, rfl⟩

theorem runDeserialize_store_mono (p : PState) (batch : List (Option SO))
    (ir dict fnr : Bool) (oid : String) (ob : Obj)
    (hob : alookup p.store oid = some ob) :
    ∃ ob2,
      alookup (runDeserialize p batch ir dict fnr false).2.p.store oid =
        some ob2 ∧ tsStep ob ob2 := by
  unfold runDeserialize
  by_cases hb : batch = []
  · rw [if_pos hb]
    exact ⟨ob, hob, Or.inl rfl⟩
  · rw [if_neg hb]
    by_cases hpf : prefilter batch = []
    · rw [if_pos hpf]
      exact ⟨ob, hob, Or.inl rfl⟩
    · rw [if_neg hpf]
      obtain ⟨ob2, h2, hs⟩ :=
        foldl_store_mono dict (processedRecords batch ir) (initState p)
          (fun o ho => absurd ho (List.not_mem_nil o)) oid ob hob
      refine ⟨ob2, ?_, hs⟩
      show alookup (postLoop fnr _).p.store oid = some ob2
      rw [(postLoop_frame fnr _).1]
      exact h2

/-- C5 counterexample: with force_update set, a record whose mod_datetime
(3) is strictly earlier than the stored one (5) is still applied, and the
stored mod_datetime decreases from 5 to 3 across one merge. -/
theorem c5_force_update_decreases_cex :
    alookup pSt1.store "P1" = some obP1 ∧ obP1.mod_datetime = some 5 ∧
    alookup (runDeserialize pSt1 [some dP1old] false false false true).2.p.store
      "P1" =
      some { cname := "Product", mod_datetime := some 3, name := some "C",
             fks := [] } ∧
    (3 : Nat) < 5 := by
  decide

/-- C5 amended: across any sequence of merges with force_update unset, the
stored mod_datetime of every oid never decreases - each merge leaves every
stored object untouched or rewrites it with a strictly later timestamp;
with force_update set a merge can store an earlier mod_datetime. -/
theorem c5_mod_datetime_monotone_no_force (p : PState)
    (batches : List (List (Option SO) × Bool × Bool × Bool × Bool))
    (hf : ∀ b ∈ batches, b.2.2.2.2 = false)
    (oid : String) (ob : Obj) (hob : alookup p.store oid = some ob) :
    ∃ ob2, alookup (runMerges p batches).store oid = some ob2 ∧
      tsStep ob ob2 := by
  induction batches generalizing p ob with
  | nil => exact ⟨ob, hob, Or.inl rfl⟩
  | cons b rest ih =>
      have hb := hf b (List.mem_cons_self b rest)
      obtain ⟨ob1, h1, hs1⟩ :=
        runDeserialize_store_mono p b.1 b.2.1 b.2.2.1 b.2.2.2.1 oid ob hob
      rw [← hb] at h1
      obtain ⟨ob2, h2, hs2⟩ :=
        ih _ (fun b2 hb2 => hf b2 (List.mem_cons_of_mem b hb2)) ob1 h1
      refine ⟨ob2, ?_, tsStep_trans hs1 hs2⟩
      simpa [runMerges] using h2

theorem c5_mod_datetime_monotone_no_force_witness :
    ∃ ob2,
      alookup
        (runMerges pSt1 [([some dP1new], false, false, false, false)]).store
        "P1" = some ob2 ∧ tsStep obP1 ob2 :=
  c5_mod_datetime_monotone_no_force pSt1
    [([some dP1new], false, false, false, false)] (by decide) "P1" obP1
    (by decide)

theorem alookup_addTo_self (L : List (String × List SO)) (k : String)
    (so : SO) :
    alookup (addTo L k so) k = some ((alookup L k).getD [] ++ [so]) := by
  induction L with
  | nil => simp [addTo, alookup]
  | cons hd t ih =>
      obtain ⟨k1, l⟩ := hd
      by_cases hk : k1 = k
      · subst hk
        simp [addTo, alookup]
      · simp [addTo, alookup, hk, ih]

theorem alookup_addTo_ne (L : List (String × List SO)) (k k2 : String)
    (so : SO) (h : k2 ≠ k) :
    alookup (addTo L k so) k2 = alookup L k2 := by
  induction L with
  | nil => simp [addTo, alookup, Ne.symm h]
  | cons hd t ih =>
      obtain ⟨k1, l⟩ := hd
      by_cases hk : k1 = k
      · subst hk
        simp [addTo, alookup, Ne.symm h]
      · simp only [addTo, if_neg hk, alookup]
        by_cases hk2 : k1 = k2
        · simp [hk2]
        · simp [hk2, ih]

theorem foldl_loadStep_lookup (ser : List SO) (L : List (String × List SO))
    (k : String) :
    (alookup (ser.foldl loadStep L) k).getD [] =
      (alookup L k).getD [] ++
        (validOf ser).filter (fun so => decide (keyOf so = k)) := by
  induction ser generalizing L with
  | nil => simp [validOf]
  | cons so rest ih =>
      rw [List.foldl_cons, ih]
      unfold loadStep
      by_cases hv : so.cname = "" ∨ so.cname ∉ classes
      · rw [if_pos hv]
        have hdrop : validOf (so :: rest) = validOf rest := by
          unfold validOf
          rw [List.filter_cons]
          simp [hv]
        rw [hdrop]
      · rw [if_neg hv]
        have hkeep : validOf (so :: rest) = so :: validOf rest := by
          unfold validOf
          rw [List.filter_cons]
          simp [hv]
        rw [hkeep, List.filter_cons]
        by_cases hkk : keyOf so = k
        · subst hkk
          rw [alookup_addTo_self]
          simp
        · rw [alookup_addTo_ne _ _ _ _ (Ne.symm hkk)]
          simp [hkk]

theorem join_map_filter_isSome (l : List String) (f : String → List SO)
    (p : String → Bool) (h : ∀ x, p x = false → f x = []) :
    ((l.filter p).map f).flatten = (l.map f).flatten := by
  induction l with
  | nil => rfl
  | cons x rest ih =>
      rw [List.filter_cons]
      cases hp : p x
      · simp [hp, h x hp, ih]
      · simp [hp, ih]

theorem alookup_other_init (k : String) :
    (alookup [(("other" : String), ([] : List SO))] k).getD [] = [] := by
  unfold alookup
  split
  · rfl
  · rfl

theorem other_not_in_order : ("other" : String) ∉ DESERIALIZATION_ORDER := by
  decide

/-- C8: the merge visits the batch grouped by class, the classes of
DESERIALIZATION_ORDER first and in that fixed order, records whose class is
recognized but not in the explicit order in a final bucket after all
ordered classes, and within each class the records keep batch-arrival
order: the processing sequence is exactly the concatenation, over the fixed
order, of the arrival-ordered per-class subsequences of the recognized
records, followed by the arrival-ordered bucket of recognized records whose
class the explicit order does not mention. -/
theorem c8_grouped_processing_order (ser : List SO) :
    processSeq ser =
      (DESERIALIZATION_ORDER.map
        (fun c => (validOf ser).filter (fun so => decide (so.cname = c)))).flatten ++
      (validOf ser).filter
        (fun so => decide (so.cname ∉ DESERIALIZATION_ORDER)) := by
  unfold processSeq
  dsimp only
  rw [join_map_filter_isSome _ _ _
        (fun c hc => by
          cases hl : alookup (buildLoadable ser) c with
          | none => rfl
          | some v => rw [hl] at hc; simp at hc)]
  congr 1
  · refine congrArg List.flatten ?_
    apply List.map_congr_left
    intro c hc
    show (alookup (buildLoadable ser) c).getD [] = _
    unfold buildLoadable
    rw [foldl_loadStep_lookup, alookup_other_init]
    rw [List.nil_append]
    apply List.filter_congr
    intro so hso
    rw [decide_eq_decide]
    constructor
    · intro hk
      unfold keyOf at hk
      by_cases hmem : so.cname ∈ DESERIALIZATION_ORDER
      · rw [if_pos hmem] at hk
        exact hk
      · rw [if_neg hmem] at hk
        exact absurd (hk ▸ hc) other_not_in_order
    · intro hk
      unfold keyOf
      rw [if_pos (hk ▸ hc)]
      exact hk
  · show (alookup (buildLoadable ser) "other").getD [] = _
    unfold buildLoadable
    rw [foldl_loadStep_lookup, alookup_other_init, List.nil_append]
    apply List.filter_congr
    intro so hso
    rw [decide_eq_decide]
    constructor
    · intro hk
      unfold keyOf at hk
      intro hmem
      rw [if_pos hmem] at hk
      exact absurd (hk ▸ hmem) other_not_in_order
    · intro hmem
      unfold keyOf
      rw [if_neg hmem]

theorem processBody_no_acu (dict : Bool) (s : MState) (d : SO)
    (hcname : d.cname ≠ "Acu") (hflag : s.refresh_comp_required = false) :
    (processBody dict s d).refresh_comp_required = false ∧
    (processBody dict s d).p.componentz = s.p.componentz ∧
    (processBody dict s d).refreshed_componentz = s.refreshed_componentz := by
  unfold processBody
  rw [bodyPrep_eq]
  rcases bodyMain_cases dict _ d with h | ⟨ob, hob, _, _, h⟩ | ⟨_, _, h⟩ <;>
    rw [h]
  · rw [refreshBlock_of_flag_false _ (by exact hflag)]
    exact ⟨hflag, rfl, rfl⟩
  · obtain ⟨b1, b2, hu, hub1⟩ := updFlags_cases _ d
    rw [hu]
    have hb1f : b1 = false := by
      cases hb : b1
      · rfl
      · exact absurd (hub1 hb) hcname
    rw [refreshBlock_of_flag_false _ (by simp [hb1f, hflag])]
    simp [hb1f, hflag]
  · obtain ⟨la, lp, lr, b1, b2, hcf, _, _, _, hb1⟩ := createFlags_cases _ d
    rw [hcf]
    have hb1f : b1 = false := by
      cases hb : b1
      · rfl
      · exact absurd (hb1 hb) hcname
    rw [refreshBlock_of_flag_false _ (by simp [hb1f, hflag])]
    simp [hb1f, hflag]

theorem processRecord_no_acu (force dict : Bool) (s : MState) (d : SO)
    (hcname : d.cname ≠ "Acu") (hflag : s.refresh_comp_required = false) :
    (processRecord force dict s d).refresh_comp_required = false ∧
    (processRecord force dict s d).p.componentz = s.p.componentz ∧
    (processRecord force dict s d).refreshed_componentz =
      s.refreshed_componentz := by
  rcases processRecord_cases force dict s d with h | h | ⟨_, h⟩ |
    ⟨_, _, h⟩ <;> rw [h]
  · exact ⟨hflag, rfl, rfl⟩
  · exact ⟨hflag, rfl, rfl⟩
  · exact processBody_no_acu dict s d hcname hflag
  · exact processBody_no_acu dict _ d hcname hflag

theorem processBody_no_usage (dict : Bool) (s : MState) (d : SO)
    (h1 : d.cname ≠ "Acu") (h2 : d.cname ≠ "ProjectSystemUsage")
    (h3 : d.cname ∉ productClasses) :
    (processBody dict s d).acus = s.acus ∧
    (processBody dict s d).psus = s.psus ∧
    (processBody dict s d).products = s.products := by
  unfold processBody
  rw [bodyPrep_eq]
  rcases bodyMain_cases dict _ d with h | ⟨ob, hob, _, _, h⟩ | ⟨_, _, h⟩ <;>
    rw [h]
  · rcases refreshBlock_cases _ with hr | ⟨a, hr⟩ <;> rw [hr] <;>
      exact ⟨rfl, rfl, rfl⟩
  · obtain ⟨b1, b2, hu, hub1⟩ := updFlags_cases _ d
    rw [hu]
    rcases refreshBlock_cases _ with hr | ⟨a, hr⟩ <;> rw [hr] <;>
      exact ⟨rfl, rfl, rfl⟩
  · obtain ⟨la, lp, lr, b1, b2, hcf, hla, hlp, hlr, _⟩ := createFlags_cases _ d
    rw [hcf]
    have hlaE : la = [] := by
      by_cases hl : la = []
      · exact hl
      · exact absurd (hla hl) h1
    have hlpE : lp = [] := by
      by_cases hl : lp = []
      · exact hl
      · exact absurd (hlp hl) h2
    have hlrE : lr = [] := by
      by_cases hl : lr = []
      · exact hl
      · exact absurd (hlr hl) h3
    rcases refreshBlock_cases _ with hr | ⟨a, hr⟩ <;> rw [hr] <;>
      simp [hlaE, hlpE, hlrE]

theorem processRecord_no_usage (force dict : Bool) (s : MState) (d : SO)
    (h1 : d.cname ≠ "Acu") (h2 : d.cname ≠ "ProjectSystemUsage")
    (h3 : d.cname ∉ productClasses) :
    (processRecord force dict s d).acus = s.acus ∧
    (processRecord force dict s d).psus = s.psus ∧
    (processRecord force dict s d).products = s.products := by
  rcases processRecord_cases force dict s d with h | h | ⟨_, h⟩ |
    ⟨_, _, h⟩ <;> rw [h]
  · exact ⟨rfl, rfl, rfl⟩
  · exact ⟨rfl, rfl, rfl⟩
  · exact processBody_no_usage dict s d h1 h2 h3
  · exact processBody_no_usage dict _ d h1 h2 h3

theorem processRecord_recomputed (force dict : Bool) (s : MState) (d : SO) :
    (processRecord force dict s d).recomputed_parm_oids =
      s.recomputed_parm_oids := by
  rcases processRecord_cases force dict s d with h | h | ⟨_, h⟩ |
    ⟨_, _, h⟩ <;> rw [h] <;>
    first
    | rfl
    | exact (processBody_frame dict _ d).2.2.2.2.2.2.2.2.2

theorem processRecord_req_allocz (force dict : Bool) (s : MState) (d : SO) :
    (processRecord force dict s d).p.req_allocz = s.p.req_allocz := by
  rcases processRecord_cases force dict s d with h | h | ⟨_, h⟩ |
    ⟨_, _, h⟩ <;> rw [h] <;>
    first
    | rfl
    | exact (processBody_frame dict _ d).2.2.2.2.2.2.2.1

theorem processRecord_refreshed_req (force dict : Bool) (s : MState)
    (d : SO) :
    (processRecord force dict s d).refreshed_req_allocz =
      s.refreshed_req_allocz := by
  rcases processRecord_cases force dict s d with h | h | ⟨_, h⟩ |
    ⟨_, _, h⟩ <;> rw [h] <;>
    first
    | rfl
    | exact (processBody_frame dict _ d).2.2.2.2.2.2.2.2.1

theorem foldl_req_allocz (force dict : Bool) (recs : List SO) (s : MState) :
    (recs.foldl (processRecord force dict) s).p.req_allocz =
      s.p.req_allocz := by
  induction recs generalizing s with
  | nil => rfl
  | cons d rest ih => rw [List.foldl_cons, ih, processRecord_req_allocz]

theorem foldl_refreshed_req (force dict : Bool) (recs : List SO)
    (s : MState) :
    (recs.foldl (processRecord force dict) s).refreshed_req_allocz =
      s.refreshed_req_allocz := by
  induction recs generalizing s with
  | nil => rfl
  | cons d rest ih => rw [List.foldl_cons, ih, processRecord_refreshed_req]

theorem foldl_no_acu (force dict : Bool) (recs : List SO) (s : MState)
    (hA : ∀ d ∈ recs, d.cname ≠ "Acu")
    (hflag : s.refresh_comp_required = false) :
    (recs.foldl (processRecord force dict) s).refresh_comp_required = false ∧
    (recs.foldl (processRecord force dict) s).p.componentz = s.p.componentz ∧
    (recs.foldl (processRecord force dict) s).refreshed_componentz =
      s.refreshed_componentz := by
  induction recs generalizing s with
  | nil => exact ⟨hflag, rfl, rfl⟩
  | cons d rest ih =>
      obtain ⟨hf1, hc1, hr1⟩ :=
        processRecord_no_acu force dict s d
          (hA d (List.mem_cons_self d rest)) hflag
      obtain ⟨hf2, hc2, hr2⟩ :=
        ih (processRecord force dict s d)
          (fun d2 hd2 => hA d2 (List.mem_cons_of_mem d hd2)) hf1
      exact ⟨by simpa using hf2, by rw [List.foldl_cons, hc2, hc1],
        by rw [List.foldl_cons, hr2, hr1]⟩

theorem foldl_no_usage (force dict : Bool) (recs : List SO) (s : MState)
    (hU : ∀ d ∈ recs, d.cname ≠ "Acu" ∧ d.cname ≠ "ProjectSystemUsage" ∧
      d.cname ∉ productClasses) :
    (recs.foldl (processRecord force dict) s).acus = s.acus ∧
    (recs.foldl (processRecord force dict) s).psus = s.psus ∧
    (recs.foldl (processRecord force dict) s).products = s.products := by
  induction recs generalizing s with
  | nil => exact ⟨rfl, rfl, rfl⟩
  | cons d rest ih =>
      obtain ⟨h1, h2, h3⟩ := hU d (List.mem_cons_self d rest)
      obtain ⟨ha1, hp1, hr1⟩ := processRecord_no_usage force dict s d h1 h2 h3
      obtain ⟨ha2, hp2, hr2⟩ :=
        ih (processRecord force dict s d)
          (fun d2 hd2 => hU d2 (List.mem_cons_of_mem d hd2))
      exact ⟨by rw [List.foldl_cons, ha2, ha1],
        by rw [List.foldl_cons, hp2, hp1],
        by rw [List.foldl_cons, hr2, hr1]⟩

theorem foldl_recomputed (force dict : Bool) (recs : List SO) (s : MState) :
    (recs.foldl (processRecord force dict) s).recomputed_parm_oids =
      s.recomputed_parm_oids := by
  induction recs generalizing s with
  | nil => rfl
  | cons d rest ih =>
      rw [List.foldl_cons, ih, processRecord_recomputed]

theorem postLoop_no_usage (fnr : Bool) (s : MState) (ha : s.acus = [])
    (hp : s.psus = []) (hpr : s.products = []) :
    (postLoop fnr s).p.req_allocz = s.p.req_allocz ∧
    (postLoop fnr s).refreshed_req_allocz = s.refreshed_req_allocz := by
  unfold postLoop
  dsimp only
  rw [ha, hp, hpr]
  simp only [List.foldl_nil, ne_eq, not_true_eq_false, if_false]
  split <;> exact ⟨rfl, rfl⟩

theorem postLoop_recomputed (fnr : Bool) (s : MState) :
    (postLoop fnr s).recomputed_parm_oids = s.recomputed_parm_oids ∨
    (postLoop fnr s).recomputed_parm_oids =
      parmRoots (postLoop fnr s).p.parameterz := by
  unfold postLoop
  dsimp only
  repeat' split
  all_goals first | exact Or.inl rfl | exact Or.inr rfl

/-- C9 counterexample: a merge whose batch touches only the root P1 (one
Product record carrying a parameter) triggers the final recompute, and the
set of parameter-cache roots recomputed includes the unrelated root R2 -
cache maintenance for the parameter index is wholesale, not root-local. -/
theorem c9_wholesale_recompute_cex :
    "R2" ∈ (runDeserialize pSt1 [some dP1new] false false false
      false).2.recomputed_parm_oids ∧
    (processedRecords [some dP1new] false).map SO.oid = ["P1"] ∧
    ("R2" : String) ≠ "P1" := by
  decide

/-- C9 amended: derived-cache maintenance is root-local for the
assembly-component and requirement-allocation caches - a merge whose batch
contains no Acu record refreshes no componentz entry and leaves that cache
unchanged, and one whose batch contains no Acu, ProjectSystemUsage or
Product-subclass record refreshes no req_allocz entry and leaves that cache
unchanged - but the computed-parameter cache is never recomputed
root-locally: whenever the final recompute runs it covers every root
present in the parameter cache, including roots unrelated to the batch. -/
theorem c9_cache_maintenance (p : PState) (batch : List (Option SO))
    (ir dict fnr force : Bool)
    (hU : ∀ d ∈ processedRecords batch ir,
      d.cname ≠ "Acu" ∧ d.cname ≠ "ProjectSystemUsage" ∧
      d.cname ∉ productClasses) :
    (runDeserialize p batch ir dict fnr force).2.p.componentz =
      p.componentz ∧
    (runDeserialize p batch ir dict fnr force).2.refreshed_componentz = [] ∧
    (runDeserialize p batch ir dict fnr force).2.p.req_allocz =
      p.req_allocz ∧
    (runDeserialize p batch ir dict fnr force).2.refreshed_req_allocz = [] ∧
    ((runDeserialize p batch ir dict fnr force).2.recomputed_parm_oids = [] ∨
     (runDeserialize p batch ir dict fnr force).2.recomputed_parm_oids =
       parmRoots
         (runDeserialize p batch ir dict fnr force).2.p.parameterz) := by
  unfold runDeserialize
  by_cases hb : batch = []
  · rw [if_pos hb]
    exact ⟨rfl, rfl, rfl, rfl, Or.inl rfl⟩
  · rw [if_neg hb]
    by_cases hpf : prefilter batch = []
    · rw [if_pos hpf]
      exact ⟨rfl, rfl, rfl, rfl, Or.inl rfl⟩
    · rw [if_neg hpf]
      obtain ⟨hfl, hcz, hrc⟩ :=
        foldl_no_acu force dict (processedRecords batch ir) (initState p)
          (fun d hd => (hU d hd).1) rfl
      obtain ⟨hac, hps, hprd⟩ :=
        foldl_no_usage force dict (processedRecords batch ir) (initState p)
          hU
      obtain ⟨hra, hrr⟩ :=
        postLoop_no_usage fnr _ (by simpa using hac) (by simpa using hps)
          (by simpa using hprd)
      refine ⟨?_, ?_, ?_, ?_, ?_⟩
      · show (postLoop fnr _).p.componentz = p.componentz
        rw [(postLoop_frame fnr _).2.2.2.1, hcz]
        rfl
      · show (postLoop fnr _).refreshed_componentz = []
        rw [(postLoop_frame fnr _).2.2.2.2.2.2.2.2.2.2.2.2, hrc]
        rfl
      · show (postLoop fnr _).p.req_allocz = p.req_allocz
        rw [hra, foldl_req_allocz]
        rfl
      · show (postLoop fnr _).refreshed_req_allocz = []
        rw [hrr, foldl_refreshed_req]
        rfl
      · show (postLoop fnr _).recomputed_parm_oids = [] ∨ _
        rcases postLoop_recomputed fnr _ with h | h
        · rw [h, foldl_recomputed]
          exact Or.inl rfl
        · exact Or.inr h

theorem c9_cache_maintenance_witness :
    (runDeserialize pSt1 [some dModel] false false false false).2.p.componentz =
      pSt1.componentz ∧
    (runDeserialize pSt1 [some dModel] false false false
      false).2.refreshed_req_allocz = [] := by
  have h :=
    c9_cache_maintenance pSt1 [some dModel] false false false false
      (by decide)
  exact ⟨h.1, h.2.2.2.1⟩

theorem pstate_ext (a b : PState) (h1 : a.store = b.store)
    (h2 : a.parameterz = b.parameterz) (h3 : a.data_elementz = b.data_elementz)
    (h4 : a.componentz = b.componentz) (h5 : a.req_allocz = b.req_allocz) :
    a = b := by
  cases a
  cases b
  simp_all

theorem alookup_append_single_isSome {κ α : Type} [DecidableEq κ]
    (l : List (κ × α)) (k : κ) (v : α) (o : κ) :
    (alookup (l ++ [(k, v)]) o).isSome = true ↔
      ((alookup l o).isSome = true ∨ o = k) := by
  rw [alookup_append]
  cases hl : alookup l o with
  | none =>
      simp only [hl]
      unfold alookup
      constructor
      · intro h
        split at h
        · next he => exact Or.inr he.symm
        · simp [alookup] at h
      · intro h
        rcases h with h | h
        · simp at h
        · subst h
          simp
  | some w => simp [hl]

theorem processRecord_store_frame (force dict : Bool) (s : MState) (d : SO)
    (oid : String) (hne : oid ≠ d.oid) :
    alookup (processRecord force dict s d).p.store oid =
      alookup s.p.store oid := by
  rcases processRecord_cases force dict s d with h | h | ⟨_, h⟩ |
    ⟨_, _, h⟩ <;> rw [h] <;>
    first
    | rfl
    | exact processBody_store_frame dict _ d oid hne

theorem foldl_store_frame (force dict : Bool) (recs : List SO) (s : MState)
    (oid : String) (hne : ∀ d ∈ recs, oid ≠ d.oid) :
    alookup (recs.foldl (processRecord force dict) s).p.store oid =
      alookup s.p.store oid := by
  induction recs generalizing s with
  | nil => rfl
  | cons d rest ih =>
      rw [List.foldl_cons,
        ih _ (fun d2 hd2 => hne d2 (List.mem_cons_of_mem d hd2)),
        processRecord_store_frame force dict s d oid
          (hne d (List.mem_cons_self d rest))]

theorem processRecord_ignores_mem (force dict : Bool) (s : MState) (d : SO) :
    ∀ o ∈ (processRecord force dict s d).ignores,
      o ∈ s.ignores ∨ o = d.oid := by
  rcases processRecord_cases force dict s d with h | h | ⟨_, h⟩ |
    ⟨_, _, h⟩ <;> rw [h]
  · exact fun o ho => Or.inl ho
  · intro o ho
    rcases List.mem_append.mp ho with ho | ho
    · exact Or.inl ho
    · exact Or.inr (List.mem_singleton.mp ho)
  · intro o ho
    rw [(processBody_frame dict s d).2.2.2.2.1] at ho
    rcases List.mem_append.mp ho with ho | ho
    · exact Or.inl ho
    · exact Or.inr (fkIgn_eq_oid d o ho)
  · intro o ho
    rw [(processBody_frame dict _ d).2.2.2.2.1] at ho
    rcases List.mem_append.mp ho with ho | ho
    · exact Or.inl ho
    · exact Or.inr (fkIgn_eq_oid d o ho)

theorem processBody_domain_inv (dict : Bool) (s : MState) (d : SO)
    (hinv : ∀ o, o ∈ s.current_oids ↔ (alookup s.p.store o).isSome = true) :
    ∀ o, o ∈ (processBody dict s d).current_oids ↔
      (alookup (processBody dict s d).p.store o).isSome = true := by
  unfold processBody
  rw [bodyPrep_eq]
  rcases bodyMain_cases dict _ d with h | ⟨ob, hob, _, _, h⟩ | ⟨_, _, h⟩ <;>
    rw [h]
  · rcases refreshBlock_cases _ with hr | ⟨a, hr⟩ <;> rw [hr] <;> exact hinv
  · obtain ⟨b1, b2, hu, hub1⟩ := updFlags_cases _ d
    rw [hu]
    rcases refreshBlock_cases _ with hr | ⟨a, hr⟩ <;> rw [hr] <;>
    · intro o
      show o ∈ s.current_oids ↔ _
      rw [hinv o]
      constructor
      · intro hs
        rw [alookup_setKey_isSome _ _ _ _ (by rw [show alookup s.p.store d.oid = some ob from hob]; rfl)]
        exact hs
      · intro hs
        rw [alookup_setKey_isSome _ _ _ _ (by rw [show alookup s.p.store d.oid = some ob from hob]; rfl)] at hs
        exact hs
  · obtain ⟨la, lp, lr, b1, b2, hcf, _⟩ := createFlags_cases _ d
    rw [hcf]
    rcases refreshBlock_cases _ with hr | ⟨a, hr⟩ <;> rw [hr] <;>
    · intro o
      show o ∈ s.current_oids ++ [d.oid] ↔ _
      rw [List.mem_append, List.mem_singleton,
        alookup_append_single_isSome, hinv o]

theorem processRecord_domain_inv (force dict : Bool) (s : MState) (d : SO)
    (hinv : ∀ o, o ∈ s.current_oids ↔ (alookup s.p.store o).isSome = true) :
    ∀ o, o ∈ (processRecord force dict s d).current_oids ↔
      (alookup (processRecord force dict s d).p.store o).isSome = true := by
  rcases processRecord_cases force dict s d with h | h | ⟨_, h⟩ |
    ⟨_, _, h⟩ <;> rw [h]
  · exact hinv
  · exact hinv
  · exact processBody_domain_inv dict s d hinv
  · exact processBody_domain_inv dict _ d (by exact hinv)

theorem processBody_create_store (dict : Bool) (s : MState) (d : SO)
    (hup : d.oid ∉ s.updates) (hig2 : d.oid ∉ s.ignores)
    (hfkd : fkIgn d = []) (hlk : alookup s.p.store d.oid = none) :
    alookup (processBody dict s d).p.store d.oid =
      some (newObj d (fkKw s.p.store d)) := by
  unfold processBody
  rw [bodyPrep_eq]
  rw [bodyMain_create dict _ d (by exact hup) (by simp [hfkd, hig2])]
  obtain ⟨la, lp, lr, b1, b2, hcf, _⟩ := createFlags_cases _ d
  rw [hcf]
  rcases refreshBlock_cases _ with hr | ⟨a, hr⟩ <;> rw [hr] <;>
    exact alookup_append_single_self _ _ _ hlk

theorem processRecord_gate_establish (dict : Bool) (s : MState) (d : SO)
    (hfkd : fkIgn d = []) (higd : d.oid ∉ s.ignores)
    (hinv : ∀ o, o ∈ s.current_oids ↔ (alookup s.p.store o).isSome = true)
    (hsub : ∀ o ∈ s.updates, o ∈ s.current_oids) :
    ∃ ob, alookup (processRecord false dict s d).p.store d.oid = some ob ∧
      earlier ob.mod_datetime d.mod_datetime = false := by
  by_cases hcur : d.oid ∈ s.current_oids
  · obtain ⟨ob, hob⟩ := Option.isSome_iff_exists.mp ((hinv d.oid).mp hcur)
    cases hE : earlier ob.mod_datetime d.mod_datetime
    · rw [processRecord_ignore dict s d ob hcur hob hE]
      exact ⟨ob, hob, hE⟩
    · refine ⟨applyKw ob d (fkKw s.p.store d),
        processRecord_update_store dict s d ob hcur hob hE higd hfkd, ?_⟩
      exact earlier_self_false d.mod_datetime
  · have hnone : alookup s.p.store d.oid = none := by
      cases hl : alookup s.p.store d.oid with
      | none => rfl
      | some w => exact absurd ((hinv d.oid).mpr (by rw [hl]; rfl)) hcur
    have hup : d.oid ∉ s.updates := fun hu => hcur (hsub d.oid hu)
    rw [processRecord_fresh false dict s d hcur]
    exact ⟨newObj d (fkKw s.p.store d),
      processBody_create_store dict s d hup higd hfkd hnone,
      earlier_self_false d.mod_datetime⟩

theorem foldl_gate_stable (dict : Bool) (recs : List SO) (s : MState)
    (hnd : (recs.map SO.oid).Nodup)
    (hfk : ∀ d ∈ recs, fkIgn d = [])
    (hig : ∀ d ∈ recs, d.oid ∉ s.ignores)
    (hinv : ∀ o, o ∈ s.current_oids ↔ (alookup s.p.store o).isSome = true)
    (hsub : ∀ o ∈ s.updates, o ∈ s.current_oids) :
    ∀ d ∈ recs, ∃ ob,
      alookup (recs.foldl (processRecord false dict) s).p.store d.oid =
        some ob ∧ earlier ob.mod_datetime d.mod_datetime = false := by
  induction recs generalizing s with
  | nil => intro d hd; exact absurd hd (List.not_mem_nil d)
  | cons d0 rest ih =>
      intro d hd
      rw [List.map_cons, List.nodup_cons] at hnd
      rcases List.mem_cons.mp hd with rfl | hd
      · obtain ⟨ob, hob, hE⟩ :=
          processRecord_gate_establish dict s d (hfk d (List.mem_cons_self d rest))
            (hig d (List.mem_cons_self d rest)) hinv hsub
        refine ⟨ob, ?_, hE⟩
        rw [List.foldl_cons,
          foldl_store_frame false dict rest _ d.oid
            (fun d2 hd2 h2 => hnd.1 (h2 ▸ List.mem_map_of_mem SO.oid hd2))]
        exact hob
      · rw [List.foldl_cons]
        refine ih (processRecord false dict s d0) hnd.2
          (fun d2 hd2 => hfk d2 (List.mem_cons_of_mem d0 hd2)) ?_
          (processRecord_domain_inv false dict s d0 hinv)
          (processRecord_sub_inv false dict s d0 hsub) d hd
        intro d2 hd2 hmem
        rcases processRecord_ignores_mem false dict s d0 d2.oid hmem with
          hin | heq
        · exact hig d2 (List.mem_cons_of_mem d0 hd2) hin
        · exact hnd.1 (heq ▸ List.mem_map_of_mem SO.oid hd2)

theorem foldl_all_ignored (dict : Bool) (recs : List SO) (p1 : PState)
    (hst : ∀ d ∈ recs, ∃ ob, alookup p1.store d.oid = some ob ∧
      earlier ob.mod_datetime d.mod_datetime = false)
    (acc : List String) :
    recs.foldl (processRecord false dict) (ignoredState dict p1 acc) =
      ignoredState dict p1 (acc ++ recs.map SO.oid) := by
  induction recs generalizing acc with
  | nil => rw [List.map_nil, List.append_nil]; rfl
  | cons d rest ih =>
      obtain ⟨ob, hob, hE⟩ := hst d (List.mem_cons_self d rest)
      have hcur : d.oid ∈ (ignoredState dict p1 acc).current_oids := by
        show d.oid ∈ p1.store.map Prod.fst
        exact (alookup_isSome_iff_mem _ _).mp (by rw [hob]; rfl)
      rw [List.foldl_cons,
        processRecord_ignore dict _ d ob hcur (by exact hob) hE]
      have hstep :
          ({ ignoredState dict p1 acc with
             ignores := (ignoredState dict p1 acc).ignores ++ [d.oid]
             out_unmodified :=
               if dict then
                 (ignoredState dict p1 acc).out_unmodified ++ [d.oid]
               else (ignoredState dict p1 acc).out_unmodified }) =
            ignoredState dict p1 (acc ++ [d.oid]) := by
        cases dict <;> rfl
      rw [hstep, ih (fun d2 hd2 => hst d2 (List.mem_cons_of_mem d hd2)),
        List.map_cons, List.append_assoc, List.singleton_append]

/-- C4 counterexample: against a store holding X at timestamp 10, the batch
holding two records for the same oid X (timestamps 5 and 20) refutes the
claim that the second application of a batch classifies every identity as
ignored: in both merges the first record is gate-ignored, which puts X into
ignores and blocks the second record from applying (line 294) after it has
already been classified for update (lines 211-219) - so the second merge
again reports X in updates and in the dictify modified list, not only as
ignored, even though the store never changes. -/
theorem c4_duplicate_oid_not_ignored_cex :
    (runDeserialize
        (runDeserialize pSt4 [some dXold2, some dXnew2] false true false
          false).2.p
        [some dXold2, some dXnew2] false true false false).2.updates = ["X"] ∧
    (runDeserialize
        (runDeserialize pSt4 [some dXold2, some dXnew2] false true false
          false).2.p
        [some dXold2, some dXnew2] false true false false).1 =
      Ret.dict [] ["X"] ["X"] [] ∧
    (runDeserialize
        (runDeserialize pSt4 [some dXold2, some dXnew2] false true false
          false).2.p
        [some dXold2, some dXnew2] false true false false).2.p =
      (runDeserialize pSt4 [some dXold2, some dXnew2] false true false
        false).2.p ∧
    alookup (runDeserialize pSt4 [some dXold2, some dXnew2] false true false
        false).2.p.store "X" = some obX10 := by
  decide

/-- C4 amended: applying the same batch twice with force_update unset is
idempotent provided the processed records of the batch carry pairwise
distinct oids and none is an invalid Port/Flow record (no fk-validity
ignore): the second merge then leaves the persistent state (store and all
caches) exactly as the first left it, creates and updates nothing, returns
no objects, and classifies every processed identity as ignored.  Without
the provisos a record whose gate-true update is blocked by an earlier
ignore of the same oid re-enters the update classification on every
re-merge, so the second outcome can report an identity as modified. -/
theorem c4_idempotent (p0 : PState) (batch : List (Option SO))
    (ir dict1 dict2 fnr1 fnr2 : Bool)
    (hnd : ((processedRecords batch ir).map SO.oid).Nodup)
    (hfk : ∀ d ∈ processedRecords batch ir, fkIgn d = []) :
    (runDeserialize (runDeserialize p0 batch ir dict1 fnr1 false).2.p batch ir
        dict2 fnr2 false).2.p =
      (runDeserialize p0 batch ir dict1 fnr1 false).2.p ∧
    (runDeserialize (runDeserialize p0 batch ir dict1 fnr1 false).2.p batch ir
        dict2 fnr2 false).2.created_oids = [] ∧
    (runDeserialize (runDeserialize p0 batch ir dict1 fnr1 false).2.p batch ir
        dict2 fnr2 false).2.updates = [] ∧
    (runDeserialize (runDeserialize p0 batch ir dict1 fnr1 false).2.p batch ir
        dict2 fnr2 false).2.objs_out = [] ∧
    (runDeserialize (runDeserialize p0 batch ir dict1 fnr1 false).2.p batch ir
        dict2 fnr2 false).2.ignores =
      (processedRecords batch ir).map SO.oid := by
  by_cases hb : batch = []
  · subst hb
    exact ⟨rfl, rfl, rfl, rfl, rfl⟩
  · by_cases hpf : prefilter batch = []
    · have he : ∀ (q : PState) (dc fn : Bool),
          runDeserialize q batch ir dc fn false = (Ret.objs [], initState q) := by
        intro q dc fn
        unfold runDeserialize
        rw [if_neg hb, if_pos hpf]
      have hpr : processedRecords batch ir = [] := by
        unfold processedRecords
        rw [if_neg hb, if_pos hpf]
      rw [he, he, hpr]
      exact ⟨rfl, rfl, rfl, rfl, rfl⟩
    · have hrun : ∀ (q : PState) (dc fn : Bool),
          (runDeserialize q batch ir dc fn false).2 =
            postLoop fn
              ((processedRecords batch ir).foldl (processRecord false dc)
                (initState q)) := by
        intro q dc fn
        unfold runDeserialize
        rw [if_neg hb, if_neg hpf]
      set recs := processedRecords batch ir with hrecs
      set p1 := (runDeserialize p0 batch ir dict1 fnr1 false).2.p with hp1
      have hst : ∀ d ∈ recs, ∃ ob, alookup p1.store d.oid = some ob ∧
          earlier ob.mod_datetime d.mod_datetime = false := by
        intro d hd
        obtain ⟨ob, hob, hE⟩ :=
          foldl_gate_stable dict1 recs (initState p0) hnd hfk
            (fun d2 _ hmem => absurd hmem (List.not_mem_nil d2.oid))
            (fun o => (alookup_isSome_iff_mem p0.store o).symm)
            (fun o ho => absurd ho (List.not_mem_nil o)) d hd
        refine ⟨ob, ?_, hE⟩
        rw [hp1, hrun p0 dict1 fnr1]
        show alookup (postLoop fnr1 _).p.store d.oid = some ob
        rw [(postLoop_frame fnr1 _).1]
        exact hob
      have hcol :
          recs.foldl (processRecord false dict2) (initState p1) =
            ignoredState dict2 p1 (recs.map SO.oid) := by
        have h0 : initState p1 = ignoredState dict2 p1 [] := by
          cases dict2 <;> rfl
        rw [h0, foldl_all_ignored dict2 recs p1 hst []]
        rfl
      have h2 := hrun p1 dict2 fnr2
      rw [h2, hcol]
      have hpl := postLoop_frame fnr2 (ignoredState dict2 p1 (recs.map SO.oid))
      obtain ⟨hra, _⟩ :=
        postLoop_no_usage fnr2 (ignoredState dict2 p1 (recs.map SO.oid)) rfl
          rfl rfl
      refine ⟨?_, ?_, ?_, ?_, ?_⟩
      · refine pstate_ext _ _ ?_ ?_ ?_ ?_ ?_
        · rw [hpl.1]
          rfl
        · rw [hpl.2.1]
          rfl
        · rw [hpl.2.2.1]
          rfl
        · rw [hpl.2.2.2.1]
          rfl
        · rw [hra]
          rfl
      · rw [hpl.2.2.2.2.2.1]
        rfl
      · rw [hpl.2.2.2.2.2.2.1]
        rfl
      · rw [hpl.2.2.2.2.2.2.2.1]
        rfl
      · rw [hpl.2.2.2.2.1]
        rfl

theorem c4_idempotent_witness :
    (runDeserialize
        (runDeserialize pSt1 [some dP1new, some dFlow] false false false
          false).2.p
        [some dP1new, some dFlow] false false false false).2.p =
      (runDeserialize pSt1 [some dP1new, some dFlow] false false false
        false).2.p ∧
    (runDeserialize
        (runDeserialize pSt1 [some dP1new, some dFlow] false false false
          false).2.p
        [some dP1new, some dFlow] false false false false).2.ignores =
      (processedRecords [some dP1new, some dFlow] false).map SO.oid := by
  have h :=
    c4_idempotent pSt1 [some dP1new, some dFlow] false false false false false
      (by decide) (by decide)
  exact ⟨h.1, h.2.2.2.2⟩

end PanGalactic
